import Mathlib

/-!
Verification of the hemoglobin card-search library against its
natural-language specification.

The definitions below are a shallow embedding of the Rust sources under
src/: pure Rust functions become Lean functions, `usize` becomes `Nat`
(with explicit overflow modelling where the source performs arithmetic),
fallible code returns `Option`/`Except`, and the interior-mutable
devoured-by cache becomes explicit state passing.  Each definition's doc
comment names the source item it embeds.
-/

namespace Hemoglobin

/-! ## Ternary (src/search.rs lines 42-109 and src/numbers/compare.rs lines 6-82) -/

/-- Embeds enum `Ternary` from search.rs: `Void`, `False`, `True`, with the
derived `Ord` given by declaration order (`Void < False < True`). -/
inductive Ternary where
  | Void
  | False
  | True
deriving DecidableEq, Repr

/-- The rank of a `Ternary` value under the derived Rust `Ord`
(declaration order `Void < False < True`). -/
def Ternary.toNat : Ternary → Nat
  | .Void => 0
  | .False => 1
  | .True => 2

/-- Embeds `impl From<bool> for Ternary`. -/
def Ternary.ofBool (b : Bool) : Ternary :=
  if b then .True else .False

/-- Embeds `Ternary::and`: `std::cmp::min(self, b)` under the derived order.
Rust `Ord::min(self, other)` returns `other` when `other < self`, else `self`. -/
def Ternary.and (a b : Ternary) : Ternary :=
  if b.toNat < a.toNat then b else a

/-- Embeds `Ternary::or`: `std::cmp::max(self, b)` under the derived order.
Rust `Ord::max(self, other)` returns `self` when `other < self`, else `other`. -/
def Ternary.or (a b : Ternary) : Ternary :=
  if b.toNat < a.toNat then a else b

/-- Embeds `Ternary::xor` from search.rs lines 70-80, with the source's
or-patterns expanded case by case. -/
def Ternary.xor (a b : Ternary) : Ternary :=
  match a, b with
  | .Void, .Void => .Void
  | .True, .False => .True
  | .True, .Void => .True
  | .False, .True => .True
  | .Void, .True => .True
  | .False, .False => .False
  | .Void, .False => .False
  | .False, .Void => .False
  | .True, .True => .False

/-- Embeds `impl Not for Ternary`. -/
def Ternary.not : Ternary → Ternary
  | .True => .False
  | .False => .True
  | .Void => .Void

/-! Truth tables of the specification, section 4.3: `and = min` and
`or = max` under the total order `Void < False < True`, `not` swaps
`True`/`False` and fixes `Void`, and the explicit `xor` table.  These are
written from the spec's words, to be compared with the code's
operations. -/

/-- Spec section 4.3 table: `and = min` under `Void < False < True`. -/
def Ternary.andTable : Ternary → Ternary → Ternary
  | .Void, _ => .Void
  | .False, .Void => .Void
  | .False, .False => .False
  | .False, .True => .False
  | .True, y => y

/-- Spec section 4.3 table: `or = max` under `Void < False < True`. -/
def Ternary.orTable : Ternary → Ternary → Ternary
  | .True, _ => .True
  | .False, .True => .True
  | .False, .False => .False
  | .False, .Void => .False
  | .Void, y => y

/-- Spec section 4.3 table: `not` swaps `True` and `False`, fixes `Void`. -/
def Ternary.notTable : Ternary → Ternary
  | .True => .False
  | .False => .True
  | .Void => .Void

/-- Spec section 4.3 table for `xor`: `(V,V)=V`, `(T,T)=F`, `(F,F)=F`,
`(T,F)=(F,T)=T`, `(V,T)=(T,V)=T`, `(V,F)=(F,V)=F`. -/
def Ternary.xorTable : Ternary → Ternary → Ternary
  | .Void, .Void => .Void
  | .True, .True => .False
  | .False, .False => .False
  | .True, .False => .True
  | .False, .True => .True
  | .Void, .True => .True
  | .True, .Void => .True
  | .Void, .False => .False
  | .False, .Void => .False

/-! ## The imprecise numeric algebra (src/numbers.rs) -/

/-- Embeds enum `MaybeVar` from numbers.rs: a constant `usize` or a named
variable character. -/
inductive MaybeVar where
  | Const (n : Nat)
  | Var (c : Char)
deriving DecidableEq, Repr

/-- Embeds `MaybeVar::assume`: a variable is assumed to be zero. -/
def MaybeVar.assume : MaybeVar → Nat
  | .Const n => n
  | .Var _ => 0

/-- Embeds enum `Comparison` from numbers.rs. -/
inductive Comparison where
  | GreaterThan (n : Nat)
  | GreaterThanOrEqual (n : Nat)
  | LowerThanOrEqual (n : Nat)
  | Equal (n : Nat)
  | LowerThan (n : Nat)
  | NotEqual (n : Nat)
deriving DecidableEq, Repr

/-- Embeds enum `MaybeImprecise` from numbers.rs. -/
inductive MaybeImprecise where
  | Precise (v : MaybeVar)
  | Imprecise (c : Comparison)
deriving DecidableEq, Repr

/-- Embeds `MaybeImprecise::as_comparison`. -/
def MaybeImprecise.as_comparison : MaybeImprecise → Comparison
  | .Precise v => .Equal v.assume
  | .Imprecise c => c

/-- The largest `usize` value on the 64-bit targets the crate runs on. -/
def USIZE_MAX : Nat := 2 ^ 64 - 1

/-- Wrapping `usize` subtraction of 1, the release-profile semantics of the
`comparison - 1` expression in `Compare::lt` (compare.rs line 143). -/
def wrapSub1 (a : Nat) : Nat :=
  (a + USIZE_MAX) % (USIZE_MAX + 1)

/-- Wrapping `usize` addition of 1, the release-profile semantics of the
`comparison + 1` expression in `Compare::gt` (compare.rs line 118). -/
def wrapAdd1 (a : Nat) : Nat :=
  (a + 1) % (USIZE_MAX + 1)

/-- Checked `usize` subtraction of 1: `none` models the arithmetic-overflow
panic that debug builds raise on `comparison - 1` when `comparison = 0`. -/
def checkedSub1 (a : Nat) : Option Nat :=
  if 1 ≤ a then some (a - 1) else none

/-- Checked `usize` addition of 1: `none` models the arithmetic-overflow
panic that debug builds raise on `comparison + 1` at `usize::MAX`. -/
def checkedAdd1 (a : Nat) : Option Nat :=
  if a + 1 ≤ USIZE_MAX then some (a + 1) else none

/-- Embeds `Compare::gt for MaybeImprecise` (compare.rs lines 111-122),
with the release-profile wrapping semantics for `comparison + 1`. -/
def MaybeImprecise.gt (m : MaybeImprecise) (comparison : Nat) : Ternary :=
  match m with
  | .Precise x => .ofBool (decide (x.assume > comparison))
  | .Imprecise c =>
    match c with
    | .GreaterThan _ => .True
    | .GreaterThanOrEqual _ => .True
    | .NotEqual _ => .True
    | .LowerThan x => .ofBool (decide (x > wrapAdd1 comparison))
    | .LowerThanOrEqual x => .ofBool (decide (x > comparison))
    | .Equal x => .ofBool (decide (x > comparison))

/-- Embeds `Compare::gt_eq for MaybeImprecise` (compare.rs lines 124-137). -/
def MaybeImprecise.gt_eq (m : MaybeImprecise) (comparison : Nat) : Ternary :=
  match m with
  | .Precise x => .ofBool (decide (x.assume ≥ comparison))
  | .Imprecise c =>
    match c with
    | .Equal x => .ofBool (decide (x ≥ comparison))
    | .GreaterThan _ => .True
    | .GreaterThanOrEqual _ => .True
    | .NotEqual _ => .True
    | .LowerThan x => .ofBool (decide (x > comparison))
    | .LowerThanOrEqual x => .ofBool (decide (x > comparison))

/-- Embeds `Compare::lt for MaybeImprecise` (compare.rs lines 139-152),
with the release-profile wrapping semantics for `comparison - 1`. -/
def MaybeImprecise.lt (m : MaybeImprecise) (comparison : Nat) : Ternary :=
  match m with
  | .Precise x => .ofBool (decide (x.assume < comparison))
  | .Imprecise c =>
    match c with
    | .GreaterThan x => .ofBool (decide (x < wrapSub1 comparison))
    | .GreaterThanOrEqual x => .ofBool (decide (x < comparison))
    | .Equal x => .ofBool (decide (x < comparison))
    | .LowerThan _ => .True
    | .LowerThanOrEqual _ => .True
    | .NotEqual _ => .True

/-- Embeds `Compare::lt_eq for MaybeImprecise` (compare.rs lines 154-167).
Note the source handles `GreaterThan` and `GreaterThanOrEqual` in one arm,
both with the strict test `*x < comparison`. -/
def MaybeImprecise.lt_eq (m : MaybeImprecise) (comparison : Nat) : Ternary :=
  match m with
  | .Precise x => .ofBool (decide (x.assume ≤ comparison))
  | .Imprecise c =>
    match c with
    | .Equal x => .ofBool (decide (x ≤ comparison))
    | .GreaterThan x => .ofBool (decide (x < comparison))
    | .GreaterThanOrEqual x => .ofBool (decide (x < comparison))
    | .LowerThan _ => .True
    | .LowerThanOrEqual _ => .True
    | .NotEqual _ => .True

/-- Embeds `Compare::eq for MaybeImprecise` (compare.rs lines 169-181). -/
def MaybeImprecise.eq (m : MaybeImprecise) (comparison : Nat) : Ternary :=
  match m with
  | .Precise x => .ofBool (decide (comparison = x.assume))
  | .Imprecise c =>
    match c with
    | .Equal x => .ofBool (decide (comparison = x))
    | .GreaterThan x => .ofBool (decide (comparison > x))
    | .GreaterThanOrEqual x => .ofBool (decide (comparison ≥ x))
    | .LowerThan x => .ofBool (decide (comparison < x))
    | .LowerThanOrEqual x => .ofBool (decide (comparison ≤ x))
    | .NotEqual x => .ofBool (decide (comparison ≠ x))

/-- Embeds `Compare::ne for MaybeImprecise` (compare.rs lines 183-195). -/
def MaybeImprecise.ne (m : MaybeImprecise) (comparison : Nat) : Ternary :=
  match m with
  | .Precise x => .ofBool (decide (comparison ≠ x.assume))
  | .Imprecise c =>
    match c with
    | .Equal x => .ofBool (decide (comparison ≠ x))
    | .GreaterThan _ => .True
    | .GreaterThanOrEqual _ => .True
    | .LowerThan _ => .True
    | .LowerThanOrEqual _ => .True
    | .NotEqual _ => .True

/-- The debug-profile semantics of `Compare::lt for MaybeImprecise`:
identical to `MaybeImprecise.lt` except that the `GreaterThan` arm's
`comparison - 1` is checked, so `none` marks the underflow panic debug
builds raise when `comparison = 0`. -/
def MaybeImprecise.ltChecked (m : MaybeImprecise) (comparison : Nat) :
    Option Ternary :=
  match m with
  | .Precise x => some (.ofBool (decide (x.assume < comparison)))
  | .Imprecise c =>
    match c with
    | .GreaterThan x =>
      (checkedSub1 comparison).map fun k => .ofBool (decide (x < k))
    | .GreaterThanOrEqual x => some (.ofBool (decide (x < comparison)))
    | .Equal x => some (.ofBool (decide (x < comparison)))
    | .LowerThan _ => some .True
    | .LowerThanOrEqual _ => some .True
    | .NotEqual _ => some .True

/-- The debug-profile semantics of `Compare::gt for MaybeImprecise`:
identical to `MaybeImprecise.gt` except that the `LowerThan` arm's
`comparison + 1` is checked, so `none` marks the overflow panic debug
builds raise when `comparison = usize::MAX`. -/
def MaybeImprecise.gtChecked (m : MaybeImprecise) (comparison : Nat) :
    Option Ternary :=
  match m with
  | .Precise x => some (.ofBool (decide (x.assume > comparison)))
  | .Imprecise c =>
    match c with
    | .GreaterThan _ => some .True
    | .GreaterThanOrEqual _ => some .True
    | .NotEqual _ => some .True
    | .LowerThan x =>
      (checkedAdd1 comparison).map fun k => .ofBool (decide (x > k))
    | .LowerThanOrEqual x => some (.ofBool (decide (x > comparison)))
    | .Equal x => some (.ofBool (decide (x > comparison)))

/-- Embeds `Comparison::compare` (numbers.rs lines 121-130) at
`T = MaybeImprecise`. -/
def Comparison.compare (c : Comparison) (a : MaybeImprecise) : Ternary :=
  match c with
  | .GreaterThan x => a.gt x
  | .Equal x => a.eq x
  | .LowerThan x => a.lt x
  | .NotEqual x => a.ne x
  | .GreaterThanOrEqual x => a.gt_eq x
  | .LowerThanOrEqual x => a.lt_eq x

/-- Embeds `Comparison::compare` at `T = Option<MaybeImprecise>`, where
`impl Compare for Option<T>` (compare.rs lines 84-108) sends an absent
slot to `Void` in every method. -/
def Comparison.compareOpt (c : Comparison) (a : Option MaybeImprecise) :
    Ternary :=
  match a with
  | none => .Void
  | some x => c.compare x

/-! ## Kins (src/cards/kins.rs) -/

/-- Embeds enum `InsectKin`. -/
inductive InsectKin where
  | Ant
  | Bee
deriving DecidableEq, Repr

/-- Embeds enum `PiezanKin`. -/
inductive PiezanKin where
  | RedKingdom
  | BlueKingdom
  | BlackKingdom
  | GreenKingdom
deriving DecidableEq, Repr

/-- Embeds enum `MachineKin`. -/
inductive MachineKin where
  | Blight
deriving DecidableEq, Repr

/-- Embeds enum `Kin` from kins.rs: parent kins with optional children. -/
inductive Kin where
  | Assassin
  | Undead
  | Reptile
  | CultOfNa
  | Sorcery
  | Their
  | Insect (k : Option InsectKin)
  | Piezan (k : Option PiezanKin)
  | Machine (k : Option MachineKin)
deriving DecidableEq, Repr

/-- Embeds `Kin::is_same_or_child` (kins.rs lines 62-87), keeping the
source's match arms in order; or-patterns are expanded case by case. -/
def Kin.is_same_or_child (a b : Kin) : Bool :=
  match a, b with
  | .Undead, .Undead => true
  | .Assassin, .Assassin => true
  | .Reptile, .Reptile => true
  | .Sorcery, .Sorcery => true
  | .Their, .Their => true
  | _, .Sorcery => false
  | .Sorcery, _ => false
  | _, .Their => false
  | .Their, _ => false
  | .Insect _, .Insect none => true
  | .Insect none, .Insect _ => false
  | .Insect (some x), .Insect (some y) => x = y
  | .Piezan _, .Piezan none => true
  | .Piezan none, .Piezan _ => false
  | .Piezan (some x), .Piezan (some y) => x = y
  | .Machine _, .Machine none => true
  | .Machine none, .Machine _ => false
  | .Machine (some x), .Machine (some y) => x = y
  | _, _ => false

/-- Embeds `Kin::get_equalness` (kins.rs lines 90-100).  The source
returns the `f64` literals `1.0`, `0.5`, `0.0`; no arithmetic is done on
them, so they are modelled as the rationals `1`, `1/2`, `0`. -/
def Kin.get_equalness (a b : Kin) : ℚ :=
  if a.is_same_or_child b then
    if a = b then 1 else 1 / 2
  else 0

/-! ## JSON form of numeric slots (src/numbers.rs lines 133-264 and the
comparison mini-grammar of src/search/query_parser.rs lines 351-384) -/

/-- The JSON scalar a numeric slot serializes to: `serialize_u64`
produces a number, `serialize_str` a string. -/
inductive SlotJson where
  | num (n : Nat)
  | str (s : String)
deriving DecidableEq, Repr

/-- The decimal digits of `n`, most significant first — what Rust's
`Display for usize` prints. -/
def natChars (n : Nat) : List Char :=
  if n = 0 then ['0'] else ((Nat.digits 10 n).map Nat.digitChar).reverse

/-- Rust's `format!("{n}")` for a `usize`: standard decimal notation. -/
def natToString (n : Nat) : String :=
  String.mk (natChars n)

/-- Embeds `impl Serialize for MaybeVar` (numbers.rs lines 133-143). -/
def MaybeVar.serialize : MaybeVar → SlotJson
  | .Const x => .num x
  | .Var x => .str (String.singleton x)

/-- Embeds `impl Serialize for MaybeImprecise` (numbers.rs lines
145-162).  Note `Imprecise(Equal(x))` serializes as a bare number,
exactly like `Precise(Const(x))`. -/
def MaybeImprecise.serialize : MaybeImprecise → SlotJson
  | .Precise x => x.serialize
  | .Imprecise c =>
    match c with
    | .Equal x => .num x
    | .GreaterThan x => .str (">" ++ natToString x)
    | .GreaterThanOrEqual x => .str (">=" ++ natToString x)
    | .LowerThan x => .str ("<" ++ natToString x)
    | .LowerThanOrEqual x => .str ("<=" ++ natToString x)
    | .NotEqual x => .str ("!=" ++ natToString x)

/-- Rust's `char::to_digit(10)`. -/
def digitVal? (c : Char) : Option Nat :=
  if '0' ≤ c ∧ c ≤ '9' then some (c.toNat - '0'.toNat) else none

/-- Accumulating decimal parse over characters, as Rust's
`from_str_radix` digit loop. -/
def parseDigitsAux : List Char → Nat → Option Nat
  | [], acc => some acc
  | c :: rest, acc =>
    match digitVal? c with
    | some d => parseDigitsAux rest (acc * 10 + d)
    | none => none

/-- Rust's `str::parse::<usize>` over the character list: an optional
leading `+`, then a nonempty run of ASCII digits, rejecting values
beyond `usize::MAX` (where Rust's checked accumulation overflows). -/
def parseUsizeChars (l : List Char) : Option Nat :=
  let l' := if l.take 1 = ['+'] then l.drop 1 else l
  if l' = [] then none
  else
    match parseDigitsAux l' 0 with
    | some n => if n ≤ USIZE_MAX then some n else none
    | none => none

/-- Rust's `str::parse::<usize>`. -/
def parseUsize (s : String) : Option Nat :=
  parseUsizeChars s.toList

/-- Embeds `text_comparison_parser` (query_parser.rs lines 351-384); the
name drops the source's `_parser` suffix.  The whole string is first
tried as a plain number, then each comparator prefix in the source's
order (`>=` before `>`, `<=` before `<`); `none` models
`Errors::InvalidComparisonString`. -/
def text_comparison_parse (s : String) : Option Comparison :=
  let l := s.toList
  match parseUsizeChars l with
  | some x => some (.Equal x)
  | none =>
    if l.take 2 = ['>', '='] then
      (parseUsizeChars (l.drop 2)).map .GreaterThanOrEqual
    else if l.take 2 = ['<', '='] then
      (parseUsizeChars (l.drop 2)).map .LowerThanOrEqual
    else if l.take 1 = ['>'] then
      (parseUsizeChars (l.drop 1)).map .GreaterThan
    else if l.take 1 = ['<'] then
      (parseUsizeChars (l.drop 1)).map .LowerThan
    else if l.take 1 = ['='] then
      (parseUsizeChars (l.drop 1)).map .Equal
    else if l.take 2 = ['!', '='] then
      (parseUsizeChars (l.drop 2)).map .NotEqual
    else none

/-- Embeds `str_as_maybe_var` (numbers.rs lines 259-264): the first
character, if alphabetic, becomes a variable.  Rust's
`char::is_alphabetic` is modelled on its ASCII fragment. -/
def str_as_maybe_var (v : String) : Option MaybeVar :=
  match v.toList with
  | [] => none
  | c :: _ => if c.isAlpha then some (.Var c) else none

/-- Embeds the `MaybeImprecise` deserializer (numbers.rs lines 173-214):
a JSON number becomes `Precise(Const(v))` (`u64_as_maybe_var`; the
`u64 → usize` conversion never fails on the 64-bit target); a string is
first tried as a variable, then as a comparison.  `none` models a
deserialization error. -/
def MaybeImprecise.deserialize : SlotJson → Option MaybeImprecise
  | .num v => if v ≤ USIZE_MAX then some (.Precise (.Const v)) else none
  | .str v =>
    match str_as_maybe_var v with
    | some value => some (.Precise value)
    | none =>
      match text_comparison_parse v with
      | some x => some (.Imprecise x)
      | none => none

/-! ## String helpers -/

/-- Rust's `str::to_lowercase`, modelled on its ASCII fragment
(`Char.toLower` lowercases exactly the ASCII range), mapped over the
character list. -/
def strToLower (s : String) : String :=
  String.mk (s.toList.map Char.toLower)

/-- Whether `needle` occurs as a contiguous sublist of `hay`. -/
def infixSearch (needle : List Char) : List Char → Bool
  | [] => needle.isEmpty
  | c :: rest => needle.isPrefixOf (c :: rest) || infixSearch needle rest

/-- Rust's `str::contains` for a substring needle, modelled as infix
search over the character list (equivalent to the byte-level search for
the ASCII needles the library uses). -/
def strContains (hay needle : String) : Bool :=
  infixSearch needle.toList hay.toList

/-- Modelled from the spec: `clean_ascii` is called by search.rs as
`crate::clean_ascii` but its definition is not under src/.  Spec section
4.3: lowercase, fold the diacritics ä→a ë→e ï→i ö→o ü→u, and remove the
characters `"`, `'`, `.`, `,`. -/
def clean_ascii (s : String) : String :=
  String.mk <| s.toList.filterMap fun c =>
    let c := c.toLower
    let c :=
      if c = 'ä' then 'a'
      else if c = 'ë' then 'e'
      else if c = 'ï' then 'i'
      else if c = 'ö' then 'o'
      else if c = 'ü' then 'u'
      else c
    if c = '"' ∨ c = '\'' ∨ c = '.' ∨ c = ',' then none else some c

/-- The compiled form of an external `regex::Regex`: the pattern it was
built from (used by `Display`) together with its matching function,
which is external-crate behaviour and therefore left abstract as a
function value. -/
structure Regex where
  pattern : String
  isMatch : String → Bool

/-! ## Keywords and card identities (src/cards.rs lines 381-426; the
new-lineage `CardId` with imprecise numeric slots is described by spec
sections 3.1 and 4.5) -/

mutual

/-- Embeds enum `KeywordData`: a keyword's payload is a card identity or
a string. -/
inductive KeywordData where
  | CardId (cid : CardId)
  | String (s : String)

/-- Embeds struct `Keyword`: a name with optional data. -/
inductive Keyword where
  | mk (name : String) (data : Option KeywordData)

/-- Modelled from the spec: the new-lineage `CardId` consumed by
search.rs is not under src/ (src/cards.rs holds the older variant whose
numeric slots are plain `usize`).  Per spec sections 3.1/3.3 every field
is optional and numeric slots — cost, health, defense, power and
flip cost — are imprecise numerics.  The kins field is omitted: the
search.rs evaluator has no kin restriction arm. -/
inductive CardId where
  | mk (name description type : Option String)
      (keywords : Option (List Keyword))
      (cost health defense power flip_cost : Option MaybeImprecise)
      (functions : Option (List String))

end

/-- The name of a keyword. -/
def Keyword.name : Keyword → String
  | .mk n _ => n

/-- The optional payload of a keyword. -/
def Keyword.data : Keyword → Option KeywordData
  | .mk _ d => d

/-- The optional name of a card identity. -/
def CardId.name : CardId → Option String
  | .mk n _ _ _ _ _ _ _ _ _ => n

/-- The optional description of a card identity. -/
def CardId.description : CardId → Option String
  | .mk _ d _ _ _ _ _ _ _ _ => d

/-- The optional type line of a card identity. -/
def CardId.type : CardId → Option String
  | .mk _ _ t _ _ _ _ _ _ _ => t

/-- The optional keyword list of a card identity. -/
def CardId.keywords : CardId → Option (List Keyword)
  | .mk _ _ _ k _ _ _ _ _ _ => k

/-- The optional cost slot of a card identity. -/
def CardId.cost : CardId → Option MaybeImprecise
  | .mk _ _ _ _ c _ _ _ _ _ => c

/-- The optional health slot of a card identity. -/
def CardId.health : CardId → Option MaybeImprecise
  | .mk _ _ _ _ _ h _ _ _ _ => h

/-- The optional defense slot of a card identity. -/
def CardId.defense : CardId → Option MaybeImprecise
  | .mk _ _ _ _ _ _ d _ _ _ => d

/-- The optional power slot of a card identity. -/
def CardId.power : CardId → Option MaybeImprecise
  | .mk _ _ _ _ _ _ _ p _ _ => p

/-- The optional flip cost slot of a card identity. -/
def CardId.flip_cost : CardId → Option MaybeImprecise
  | .mk _ _ _ _ _ _ _ _ f _ => f

/-- The optional functions array of a card identity. -/
def CardId.functions : CardId → Option (List String)
  | .mk _ _ _ _ _ _ _ _ _ f => f

/-! ## The read capability (src/cards/properties.rs) -/

/-- Embeds enum `Number` from properties.rs. -/
inductive Number where
  | Cost
  | FlipCost
  | Health
  | Power
  | Defense
deriving DecidableEq, Repr

/-- Embeds enum `Text` from properties.rs. -/
inductive Text where
  | Id
  | Name
  | Type
  | Description
  | FlavorText
deriving DecidableEq, Repr

/-- Embeds enum `Array` from properties.rs (a single variant). -/
inductive Array where
  | Functions
deriving DecidableEq, Repr

/-- A value of some type implementing trait `Read` (properties.rs lines
8-27), embedded as the record of everything the trait exposes.  The
rich-text description is carried already rendered to a string, which is
the only way the search code consumes it; `kin` is carried as the list
of kin name strings iterated by `fuzzy` in search.rs lines 276-279. -/
structure CardView where
  id : Option String
  name : Option String
  type : Option String
  description : Option String
  flavorText : Option String
  kin : Option (List String)
  keywords : Option (List Keyword)
  functions : Option (List String)
  cost : Option MaybeImprecise
  flipCost : Option MaybeImprecise
  health : Option MaybeImprecise
  power : Option MaybeImprecise
  defense : Option MaybeImprecise

/-- `Read::get_num_property` on a view. -/
def CardView.get_num_property (c : CardView) : Number → Option MaybeImprecise
  | .Cost => c.cost
  | .FlipCost => c.flipCost
  | .Health => c.health
  | .Power => c.power
  | .Defense => c.defense

/-- `Read::get_text_property` on a view. -/
def CardView.get_text_property (c : CardView) : Text → Option String
  | .Id => c.id
  | .Name => c.name
  | .Type => c.type
  | .Description => c.description
  | .FlavorText => c.flavorText

/-- `Read::get_vec_property` on a view. -/
def CardView.get_vec_property (c : CardView) : Array → Option (List String)
  | .Functions => c.functions

/-- The `Read` view of a `CardId`, following the in-src `ReadProperties
for CardId` impl (src/cards.rs lines 249-313): `Id` and flavor text read
as absent, the health, power and defense slots apply the command-type
rule, everything else — the flip cost slot included, which the spec's
carve-out (health, defense, power only) leaves untouched — is the
underlying optional field. -/
def CardId.toView (cid : CardId) : CardView where
  id := none
  name := cid.name
  type := cid.type
  description := cid.description
  flavorText := none
  kin := none
  keywords := cid.keywords
  functions := cid.functions
  cost := cid.cost
  flipCost := cid.flip_cost
  health :=
    if (cid.type.map fun t => strContains t "command").getD false then none
    else cid.health
  power :=
    if (cid.type.map fun t => strContains t "command").getD false then none
    else cid.power
  defense :=
    if (cid.type.map fun t => strContains t "command").getD false then none
    else cid.defense

/-! ## The query AST (src/search.rs lines 111-263) -/

/-- Embeds enum `Ordering` from search.rs (sort direction). -/
inductive Ordering where
  | Ascending
  | Descending
deriving DecidableEq, Repr

/-- Embeds enum `Sort` from search.rs (`Sort` is a reserved word in
Lean, hence the `Query` prefix). -/
inductive QuerySort where
  | None
  | Fuzzy
  | Alphabet (t : Text) (o : Ordering)
  | Numeric (n : Number) (o : Ordering)
deriving Repr

/-- Embeds enum `TextComparison` from search.rs lines 213-218. -/
inductive TextComparison where
  | Contains (s : String)
  | EqualTo (s : String)
  | HasMatch (r : Regex)

mutual

/-- Embeds struct `Query` from search.rs lines 111-117. -/
inductive Query where
  | mk (name : String) (restrictions : List QueryRestriction) (sort : QuerySort)

/-- Embeds enum `QueryRestriction` from search.rs lines 220-236.  The
`KinComparison` variant is omitted: the `matches_query` match in
search.rs has no arm for it, so it is unreachable in the evaluator this
file verifies. -/
inductive QueryRestriction where
  | Fuzzy (s : String)
  | Devours (q : Query)
  | DevouredBy (q : Query)
  | NumberComparison (n : Number) (c : Comparison)
  | TextComparison (t : Text) (c : TextComparison)
  | Has (a : Array) (c : TextComparison)
  | HasKw (c : TextComparison)
  | Not (q : Query)
  | LenientNot (q : Query)
  | Group (q : Query)
  | Or (a b : Query)
  | Xor (a b : Query)

end

/-- The free-text name of a query. -/
def Query.name : Query → String
  | .mk n _ _ => n

/-- The restriction list of a query. -/
def Query.restrictions : Query → List QueryRestriction
  | .mk _ r _ => r

/-- The sort of a query. -/
def Query.sort : Query → QuerySort
  | .mk _ _ s => s

/-! ## Display rendering (the devoured-by cache key is the `Display`
form of the subquery: search.rs line 497 with the impls at search.rs
lines 119-211, numbers.rs lines 107-118, properties.rs lines 39-86) -/

/-- Embeds `Display for Number` (properties.rs lines 39-49). -/
def Number.render : Number → String
  | .Cost => "Cost"
  | .Health => "Health"
  | .Power => "Power"
  | .Defense => "Defense"
  | .FlipCost => "Flip Cost"

/-- Embeds `Display for Text` (properties.rs lines 76-86). -/
def Text.render : Text → String
  | .Id => "ID"
  | .Name => "Name"
  | .Type => "Type"
  | .Description => "Description"
  | .FlavorText => "FlavorText"

/-- Embeds `Display for Ordering` (search.rs lines 245-252). -/
def Ordering.render : Ordering → String
  | .Ascending => "Ascending"
  | .Descending => "Descending"

/-- Embeds `Display for Comparison` (numbers.rs lines 107-118). -/
def Comparison.render : Comparison → String
  | .GreaterThan n => "> " ++ toString n
  | .GreaterThanOrEqual n => ">= " ++ toString n
  | .LowerThanOrEqual n => "<= " ++ toString n
  | .Equal n => "= " ++ toString n
  | .LowerThan n => "< " ++ toString n
  | .NotEqual n => "!= " ++ toString n

mutual

/-- Embeds `Display for Query` (search.rs lines 119-148): renders each
restriction, appends the sort description, and joins with `", "` after
the word `Cards`. -/
def Query.render (q : Query) : String :=
  match q with
  | .mk name restrictions sort =>
    let props := renderRList restrictions
    let props := props ++
      match sort with
      | .None => []
      | .Fuzzy =>
        if name.isEmpty then ["sorted by Name in Ascending order"]
        else ["sorted by fuzzy match"]
      | .Alphabet p o =>
        ["sorted by " ++ p.render ++ " in " ++ o.render ++ " order"]
      | .Numeric p o =>
        ["sorted by " ++ p.render ++ " in " ++ o.render ++ " order"]
    match props with
    | [] => "Cards"
    | h :: t => "Cards " ++ t.foldl (fun acc el => acc ++ ", " ++ el) h

/-- Embeds `Display for QueryRestriction` (search.rs lines 150-211).
The `Has` fallback arm for non-`Functions` arrays is dead code, `Array`
having the single variant. -/
def QueryRestriction.render (r : QueryRestriction) : String :=
  match r with
  | .DevouredBy devourer => "which are devoured by [" ++ devourer.render ++ "]"
  | .Fuzzy text => "with \"" ++ text ++ "\" written on them"
  | .Devours devourees => "that devour [" ++ devourees.render ++ "]"
  | .NumberComparison property comparison =>
    "with " ++ property.render ++ " " ++ comparison.render
  | .TextComparison property text =>
    match text with
    | .Contains text => "whose " ++ property.render ++ " contains \"" ++ text ++ "\""
    | .HasMatch regex => "whose " ++ property.render ++ " matches /" ++ regex.pattern ++ "/"
    | .EqualTo text => "whose " ++ property.render ++ " is equal to \"" ++ text ++ "\""
  | .Has _ text =>
    match text with
    | .Contains text => "which can be used to \"" ++ text ++ "\""
    | .EqualTo text => "which can be used to \"" ++ text ++ "\""
    | .HasMatch regex => "which can be used to /" ++ regex.pattern ++ "/"
  | .HasKw keyword =>
    match keyword with
    | .Contains text => "with a \"" ++ text ++ "\" keyword"
    | .EqualTo text => "with exactly a \"" ++ text ++ "\" keyword"
    | .HasMatch regex => "with a /" ++ regex.pattern ++ "/ keyword"
  | .Not query => "that aren't [" ++ query.render ++ "]"
  | .LenientNot query =>
    "that aren't [" ++ query.render ++ "], counting lacks of a property as a non-match"
  | .Group query => "which are [" ++ query.render ++ "]"
  | .Or a b => "which are [" ++ a.render ++ "] or [" ++ b.render ++ "]"
  | .Xor a b => "which are [" ++ a.render ++ "] xor [" ++ b.render ++ "] but not both"

/-- Renders a list of restrictions in order. -/
def renderRList : List QueryRestriction → List String
  | [] => []
  | r :: rest => r.render :: renderRList rest

end

/-! ## CardId → Query projection (spec section 4.5; the in-src older
variant is `CardId::get_as_query`, src/cards.rs lines 497-552) -/

/-- Modelled from the spec: the new-lineage `CardId::get_as_query` called
by search.rs line 524 is not under src/.  Spec section 4.5, every
populated field emitting a restriction: name, type and description each
project to a `Contains` text comparison; each keyword projects to
`HasKw (Contains keyword.name)`; each of cost, health, power, defense
and flip cost projects to `NumberComparison(field, slot.as_comparison())`
so a precise value becomes `Equal(n)` and an imprecise slot keeps its
comparator.  Keywords sit between the text fields and the numeric ones,
the relative order of the in-src older variant (cards.rs lines 497-552).
The kin projection alone is omitted (spec: "if modeled"; the evaluator
has no kin arm). -/
def CardId.get_as_query (cid : CardId) : List QueryRestriction :=
  (match cid.name with
   | some name => [.TextComparison .Name (.Contains name)]
   | none => []) ++
  (match cid.type with
   | some ty => [.TextComparison .Type (.Contains ty)]
   | none => []) ++
  (match cid.description with
   | some desc => [.TextComparison .Description (.Contains desc)]
   | none => []) ++
  (match cid.keywords with
   | some kws => kws.map fun kw => .HasKw (.Contains kw.name)
   | none => []) ++
  (match cid.cost with
   | some cost => [.NumberComparison .Cost cost.as_comparison]
   | none => []) ++
  (match cid.health with
   | some health => [.NumberComparison .Health health.as_comparison]
   | none => []) ++
  (match cid.power with
   | some power => [.NumberComparison .Power power.as_comparison]
   | none => []) ++
  (match cid.defense with
   | some defense => [.NumberComparison .Defense defense.as_comparison]
   | none => []) ++
  (match cid.flip_cost with
   | some flip => [.NumberComparison .FlipCost flip.as_comparison]
   | none => [])

/-! ## Imprecise ordering (src/numbers/imprecise_ord.rs), used by the
numeric sort in `search` -/

/-- Embeds Rust's `std::cmp::Ordering` (named apart from the tokenizer's
`Ordering` enum, as the Rust sources distinguish them by path). -/
inductive CmpOrdering where
  | Less
  | Equal
  | Greater
deriving DecidableEq, Repr

/-- `std::cmp::Ordering::reverse`. -/
def CmpOrdering.reverse : CmpOrdering → CmpOrdering
  | .Less => .Greater
  | .Equal => .Equal
  | .Greater => .Less

/-- `usize::cmp`. -/
def natCmp (a b : Nat) : CmpOrdering :=
  if a < b then .Less else if a = b then .Equal else .Greater

/-- Embeds `ImpreciseOrd<Self> for Comparison` (imprecise_ord.rs lines
21-57), arms in source order with or-patterns expanded. -/
def Comparison.imprecise_cmp (a b : Comparison) : CmpOrdering :=
  match a, b with
  | .Equal x, .Equal y => natCmp x y
  | .Equal x, .GreaterThanOrEqual y => natCmp x y
  | .Equal x, .LowerThanOrEqual y => natCmp x y
  | .GreaterThan x, .GreaterThan y => natCmp x y
  | .GreaterThan x, .Equal y => natCmp x y
  | .GreaterThan x, .NotEqual y => natCmp x y
  | .GreaterThanOrEqual x, .GreaterThanOrEqual y => natCmp x y
  | .GreaterThanOrEqual x, .LowerThanOrEqual y => natCmp x y
  | .GreaterThanOrEqual x, .GreaterThan y => natCmp x y
  | .GreaterThanOrEqual x, .Equal y => natCmp x y
  | .LowerThan x, .LowerThan y => (natCmp x y).reverse
  | .LowerThan x, .Equal y => (natCmp x y).reverse
  | .LowerThan x, .NotEqual y => (natCmp x y).reverse
  | .LowerThanOrEqual x, .LowerThanOrEqual y => (natCmp x y).reverse
  | .LowerThanOrEqual x, .GreaterThanOrEqual y => (natCmp x y).reverse
  | .LowerThanOrEqual x, .LowerThan y => (natCmp x y).reverse
  | .LowerThanOrEqual x, .Equal y => (natCmp x y).reverse
  | .NotEqual _, .Equal _ => .Less
  | .NotEqual _, _ => .Equal
  | _, _ => .Less

/-- Embeds `ImpreciseOrd<MaybeVar> for MaybeVar`. -/
def MaybeVar.imprecise_cmp (a b : MaybeVar) : CmpOrdering :=
  natCmp a.assume b.assume

/-- Embeds `ImpreciseOrd<MaybeVar> for Comparison` (imprecise_ord.rs
lines 99-103). -/
def Comparison.imprecise_cmp_var (a : Comparison) (b : MaybeVar) : CmpOrdering :=
  a.imprecise_cmp (.Equal b.assume)

/-- Embeds `ImpreciseOrd<Comparison> for MaybeVar` (imprecise_ord.rs
lines 106-110). -/
def MaybeVar.imprecise_cmp_comparison (a : MaybeVar) (b : Comparison) : CmpOrdering :=
  (b.imprecise_cmp_var a).reverse

/-- Embeds `ImpreciseOrd<MaybeImprecise> for MaybeImprecise`
(imprecise_ord.rs lines 112-122).  Note the source's first arm computes
`x.imprecise_cmp(y)` with `x` the precise side for both argument orders,
which this embedding reproduces. -/
def MaybeImprecise.imprecise_cmp (a b : MaybeImprecise) : CmpOrdering :=
  match a, b with
  | .Precise x, .Imprecise y => x.imprecise_cmp_comparison y
  | .Imprecise y, .Precise x => x.imprecise_cmp_comparison y
  | .Precise x, .Precise y => x.imprecise_cmp y
  | .Imprecise x, .Imprecise y => x.imprecise_cmp y

/-- Embeds `ImpreciseOrd<Option<T>> for Option<T>` (imprecise_ord.rs
lines 5-13): an absent slot sorts below a present one. -/
def optionImpreciseCmp (a b : Option MaybeImprecise) : CmpOrdering :=
  match a, b with
  | some x, some y => x.imprecise_cmp y
  | some _, none => .Greater
  | none, _ => .Less

/-- Rust's derived `Ord` on `Option<&str>`: `None` sorts first, two
strings compare bytewise (for the ASCII data involved this agrees with
Lean's character order used here). -/
def optionStrCmp (a b : Option String) : CmpOrdering :=
  match a, b with
  | none, none => .Equal
  | none, some _ => .Less
  | some _, none => .Greater
  | some x, some y => if x < y then .Less else if x = y then .Equal else .Greater

/-! ## Evaluator support (src/search.rs) -/

/-- Embeds `match_in_vec` (search.rs lines 566-575). -/
def match_in_vec (vec : Option (List α)) (cond : α → Bool) : Ternary :=
  match vec with
  | some v => if v.any cond then .True else .False
  | none => .Void

/-- Embeds `fuzzy` (search.rs lines 266-284), testing the cleaned query
against description, name, type, kin names and keyword names in the
source's order. -/
def fuzzy (card : CardView) (query : String) : Bool :=
  (card.description.any fun x => strContains (clean_ascii x) (clean_ascii query))
  || (card.name.any fun x => strContains (clean_ascii x) (clean_ascii query))
  || (card.type.any fun x => strContains (clean_ascii x) (clean_ascii query))
  || (card.kin.any fun ks => ks.any fun x => strContains (clean_ascii x) (clean_ascii query))
  || (card.keywords.any fun ks => ks.any fun x => strContains (clean_ascii x.name) (clean_ascii query))

/-- The devoured-by cache (search.rs line 287): the `Display` rendering
of a subquery maps to the list of devoured cards.  The `RefCell`
interior mutability becomes explicit state passing; the `HashMap`
becomes an association list whose lookup takes the most recent binding,
so insertion is prepending. -/
abbrev Cache := List (String × List CardView)

/-- `HashMap::get` on the cache. -/
def cacheLookup (key : String) (cache : Cache) : Option (List CardView) :=
  List.lookup key cache

/-- `HashMap::insert` on the cache. -/
def cacheInsert (key : String) (v : List CardView) (cache : Cache) : Cache :=
  (key, v) :: cache

/-- Step 2-3 of the devoured-by resolution (search.rs lines 512-528):
for each devourer whose first `devours` keyword carries a `CardId`
payload, project that identity into a sortless, nameless query via
`get_as_query`. -/
def devourerQueries (devourers : List CardView) : List Query :=
  devourers.filterMap fun devourer =>
    match devourer.keywords with
    | none => none
    | some kws =>
      match kws.find? fun kw => kw.name == "devours" with
      | some kw =>
        match kw.data with
        | some (.CardId card_id) =>
          some (Query.mk "" card_id.get_as_query QuerySort.None)
        | _ => none
      | none => none

/-- Step 3-4 setup of the devoured-by resolution (search.rs lines
530-547): `Or`-fold the projected queries (left fold, empty fold giving
the unrestricted query), then carry the outer query's name and sort into
the devourees query. -/
def orFoldQueries (qs : List Query) (outerName : String)
    (outerSort : QuerySort) : Query :=
  let folded :=
    match qs with
    | [] => Query.mk "" [] QuerySort.None
    | h :: t =>
      t.foldl
        (fun first second =>
          Query.mk "" [QueryRestriction.Or first second] QuerySort.None)
        h
  Query.mk outerName folded.restrictions outerSort

/-- Rust `f32::partial_cmp` specialised to the rational model of the
similarity scores. -/
def ratCmp (a b : ℚ) : CmpOrdering :=
  if a < b then .Less else if a = b then .Equal else .Greater

/-- Inserts into a sorted list, before the first element it must precede:
together with `sortBy` this models Rust's stable `sort_by`. -/
def insertBy (le : α → α → Bool) (x : α) : List α → List α
  | [] => [x]
  | y :: ys => if le x y then x :: y :: ys else y :: insertBy le x ys

/-- A stable sort modelling `slice::sort_by` (which sort algorithm Rust
uses is unobservable beyond stability). -/
def sortBy (le : α → α → Bool) : List α → List α
  | [] => []
  | x :: xs => insertBy le x (sortBy le xs)

/-- The sorting phase of `search` (search.rs lines 304-340), dispatching
on the query's sort.  `wc` abstracts `weighted_compare` (fuzzy.rs),
whose `f32` scores come from the external `rust_fuzzy_search` crate and
are modelled as an arbitrary rational-valued oracle. -/
def applySort (wc : CardView → String → ℚ) (q : Query)
    (results : List CardView) : List CardView :=
  match q.sort with
  | .None => results
  | .Fuzzy =>
    if q.name.isEmpty then
      sortBy (fun a b => optionStrCmp a.name b.name ≠ .Greater) results
    else
      sortBy (fun a b => ratCmp (wc b q.name) (wc a q.name) ≠ .Greater) results
  | .Alphabet property o =>
    match o with
    | .Ascending =>
      sortBy (fun a b =>
        optionStrCmp (a.get_text_property property) (b.get_text_property property)
          ≠ .Greater) results
    | .Descending =>
      sortBy (fun a b =>
        (optionStrCmp (a.get_text_property property) (b.get_text_property property)).reverse
          ≠ .Greater) results
  | .Numeric property o =>
    match o with
    | .Ascending =>
      sortBy (fun a b =>
        optionImpreciseCmp (a.get_num_property property) (b.get_num_property property)
          ≠ .Greater) results
    | .Descending =>
      sortBy (fun a b =>
        (optionImpreciseCmp (a.get_num_property property) (b.get_num_property property)).reverse
          ≠ .Greater) results

/-- Rank used by the termination measure of the evaluator: queries that
may still resolve `DevouredBy` restrictions sit above those that may
not. -/
abbrev bRank (b : Bool) : Nat := cond b 1 0

/-! ## The evaluator (src/search.rs lines 345-564)

`matchesQueryAux` embeds `matches_query`.  The extra `allowDB` flag
exists only to justify termination: the devourees query built inside the
`DevouredBy` arm is not a structural subterm, but it contains no
`DevouredBy` restriction (`get_as_query` emits none, see
`devourerQueries_dbFree` below), so the inner `search` call evaluates it
with the flag off, under which the `DevouredBy` arm is dead code.
`matchesQueryAux_db_agnostic` below proves the flag unobservable on such
queries, so `matches_query := matchesQueryAux true` is the source
function. -/

mutual

/-- Embeds `matches_query` (search.rs lines 350-564): fold the query's
restrictions left to right, combining with ternary `and` from `True`,
threading the cache. -/
def matchesQueryAux (allowDB : Bool) (wc : CardView → String → ℚ)
    (card : CardView) (query : Query) (cards : List CardView)
    (cache : Cache) : Ternary × Cache :=
  match query with
  | .mk qname qrestrictions qsort =>
    evalRestrictions allowDB wc card qname qsort qrestrictions
      cards cache .True
termination_by (bRank allowDB, sizeOf query, 2, 0)

/-- The `for res in &query.restrictions` loop of `matches_query`, with
`filtered` the accumulator. -/
def evalRestrictions (allowDB : Bool) (wc : CardView → String → ℚ)
    (card : CardView) (outerName : String) (outerSort : QuerySort)
    (rs : List QueryRestriction) (cards : List CardView) (cache : Cache)
    (filtered : Ternary) : Ternary × Cache :=
  match rs with
  | [] => (filtered, cache)
  | r :: rest =>
    let step := evalRestriction allowDB wc card outerName outerSort r cards cache
    evalRestrictions allowDB wc card outerName outerSort rest cards step.2
      (filtered.and step.1)
termination_by (bRank allowDB, sizeOf rs, 1, 0)

/-- One arm of the `match res` in `matches_query` (search.rs lines
364-561), returning the ternary that the loop `and`s into `filtered`
together with the cache state afterwards. -/
def evalRestriction (allowDB : Bool) (wc : CardView → String → ℚ)
    (card : CardView) (outerName : String) (outerSort : QuerySort)
    (r : QueryRestriction) (cards : List CardView) (cache : Cache) :
    Ternary × Cache :=
  match r with
  | .TextComparison property comparison =>
    (match comparison with
     | .EqualTo text =>
       (card.get_text_property property).elim Ternary.Void fun p =>
         if clean_ascii p = clean_ascii text then .True else .False
     | .Contains contains =>
       (card.get_text_property property).elim Ternary.Void fun p =>
         if strContains (clean_ascii p) (clean_ascii contains) then .True
         else .False
     | .HasMatch regex =>
       (card.get_text_property property).elim Ternary.Void fun v =>
         if regex.isMatch (strToLower v) then .True else .False,
     cache)
  | .Xor group1 group2 =>
    let s1 := matchesQueryAux allowDB wc card group1 cards cache
    let s2 := matchesQueryAux allowDB wc card group2 cards s1.2
    (s1.1.xor s2.1, s2.2)
  | .Or group1 group2 =>
    let s1 := matchesQueryAux allowDB wc card group1 cards cache
    let s2 := matchesQueryAux allowDB wc card group2 cards s1.2
    (s1.1.or s2.1, s2.2)
  | .Group group => matchesQueryAux allowDB wc card group cards cache
  | .Fuzzy x => (if fuzzy card x then .True else .False, cache)
  | .NumberComparison field comparison =>
    (comparison.compareOpt (card.get_num_property field), cache)
  | .Has field thing =>
    (match thing with
     | .Contains thing =>
       match_in_vec (card.get_vec_property field) fun text =>
         strContains (strToLower text) (strToLower thing)
     | .EqualTo thing =>
       match_in_vec (card.get_vec_property field) fun text =>
         strToLower text == strToLower thing
     | .HasMatch regex =>
       match_in_vec (card.get_vec_property field) fun text =>
         regex.isMatch (strToLower text),
     cache)
  | .HasKw thing =>
    (match thing with
     | .Contains thing =>
       match_in_vec card.keywords fun keyword =>
         strContains (strToLower keyword.name) (strToLower thing)
     | .EqualTo thing =>
       match_in_vec card.keywords fun keyword =>
         strToLower keyword.name == strToLower thing
     | .HasMatch regex =>
       match_in_vec card.keywords fun keyword =>
         regex.isMatch (strToLower keyword.name),
     cache)
  | .Not queryres =>
    let s := matchesQueryAux allowDB wc card queryres cards cache
    (s.1.not, s.2)
  | .LenientNot queryres =>
    let s := matchesQueryAux allowDB wc card queryres cards cache
    (if s.1 = .True then .False else .True, s.2)
  | .Devours query =>
    match card.keywords with
    | none => (.Void, cache)
    | some kws =>
      let s := devoursAny allowDB wc query cards cache kws
      (if s.1 then .True else .False, s.2)
  | .DevouredBy devoured_by =>
    match allowDB with
    | false => (.False, cache)
    | true =>
      let key := devoured_by.render
      match cacheLookup key cache with
      | some devoured_cards =>
        (if devoured_cards.any fun x => x.name == card.name then .True
         else .False, cache)
      | none =>
        let step := devourersFilter true wc devoured_by cards cache cards
        let devourees_query :=
          orFoldQueries (devourerQueries step.1) outerName outerSort
        let devoured_cards :=
          applySort wc devourees_query
            (searchFilterInner wc devourees_query cards ([] : Cache) cards).1
        (if devoured_cards.any fun x => x.name == card.name then .True
         else .False,
         cacheInsert key devoured_cards step.2)
termination_by (bRank allowDB, sizeOf r, 0, 0)

/-- The `.any` closure over a card's keywords in the `Devours` arm
(search.rs lines 482-493): short-circuits at the first `devours` keyword
whose `CardId` payload matches the subquery, threading the cache through
each evaluated candidate. -/
def devoursAny (allowDB : Bool) (wc : CardView → String → ℚ) (dq : Query)
    (cards : List CardView) (cache : Cache) (kws : List Keyword) :
    Bool × Cache :=
  match kws with
  | [] => (false, cache)
  | kw :: rest =>
    if kw.name == "devours" then
      match kw.data with
      | some (.CardId devoured_id) =>
        let s := matchesQueryAux allowDB wc devoured_id.toView dq cards cache
        if s.1 = .True then (true, s.2)
        else devoursAny allowDB wc dq cards s.2 rest
      | _ => devoursAny allowDB wc dq cards cache rest
    else devoursAny allowDB wc dq cards cache rest
termination_by (bRank allowDB, sizeOf dq, 3, kws.length)

/-- Step 1 of the devoured-by resolution (search.rs lines 503-510): the
devourers are the cards matching the subquery as `True`, the cache
threading through each evaluation. -/
def devourersFilter (allowDB : Bool) (wc : CardView → String → ℚ)
    (dq : Query) (allCards : List CardView) (cache : Cache)
    (remaining : List CardView) : List CardView × Cache :=
  match remaining with
  | [] => ([], cache)
  | c :: rest =>
    let s := matchesQueryAux allowDB wc c dq allCards cache
    let srest := devourersFilter allowDB wc dq allCards s.2 rest
    (if s.1 = .True then c :: srest.1 else srest.1, srest.2)
termination_by (bRank allowDB, sizeOf dq, 3, remaining.length)

/-- The filtering phase of the `search` call made inside the
`DevouredBy` arm (search.rs lines 299-302 via line 549), with the fresh
cache that `search` creates.  It evaluates with the flag off, which
`matchesQueryAux_db_agnostic` shows is unobservable there. -/
def searchFilterInner (wc : CardView → String → ℚ) (q : Query)
    (allCards : List CardView) (cache : Cache)
    (remaining : List CardView) : List CardView × Cache :=
  match remaining with
  | [] => ([], cache)
  | c :: rest =>
    let s := matchesQueryAux false wc c q allCards cache
    let srest := searchFilterInner wc q allCards s.2 rest
    (if s.1 = .True then c :: srest.1 else srest.1, srest.2)
termination_by ((0 : Nat), sizeOf q, (3 : Nat), remaining.length)

end

/-- Embeds `matches_query` (search.rs lines 350-564): the evaluator with
`DevouredBy` resolution enabled. -/
def matches_query (wc : CardView → String → ℚ) (card : CardView)
    (query : Query) (cards : List CardView) (cache : Cache) :
    Ternary × Cache :=
  matchesQueryAux true wc card query cards cache

/-- The filtering phase of the top-level `search` (search.rs lines
297-302), threading the one cache `search` creates through every card in
order. -/
def searchGo (wc : CardView → String → ℚ) (q : Query)
    (allCards : List CardView) :
    List CardView → Cache → List CardView × Cache
  | [], cache => ([], cache)
  | c :: rest, cache =>
    let s := matches_query wc c q allCards cache
    let srest := searchGo wc q allCards rest s.2
    (if s.1 = .True then c :: srest.1 else srest.1, srest.2)

/-- Embeds `search` (search.rs lines 290-343): create a fresh cache,
keep the cards whose evaluation is `True`, sort per the query. -/
def search (wc : CardView → String → ℚ) (q : Query)
    (cards : List CardView) : List CardView :=
  applySort wc q (searchGo wc q cards cards []).1

mutual

/-- Whether a query contains no `DevouredBy` restriction anywhere. -/
def dbFreeQ : Query → Bool
  | .mk _ rs _ => dbFreeL rs

/-- Whether a restriction contains no `DevouredBy` anywhere. -/
def dbFreeR : QueryRestriction → Bool
  | .DevouredBy _ => false
  | .Devours q => dbFreeQ q
  | .Not q => dbFreeQ q
  | .LenientNot q => dbFreeQ q
  | .Group q => dbFreeQ q
  | .Or a b => dbFreeQ a && dbFreeQ b
  | .Xor a b => dbFreeQ a && dbFreeQ b
  | .Fuzzy _ => true
  | .NumberComparison _ _ => true
  | .TextComparison _ _ => true
  | .Has _ _ => true
  | .HasKw _ => true

/-- Whether a restriction list contains no `DevouredBy` anywhere. -/
def dbFreeL : List QueryRestriction → Bool
  | [] => true
  | r :: rest => dbFreeR r && dbFreeL rest

end

/-! ## The complete Card record (src/cards.rs lines 8-52) -/

/-- Embeds struct `Card` from src/cards.rs: a complete record whose
numeric stats are plain `usize` in this in-src lineage.  The `legality`
`HashMap` becomes an association list; `keywords` reuses this file's
single `Keyword` type (src/ carries the keyword payload type in two
lineages, which no claim distinguishes). -/
structure Card where
  id : String
  name : String
  img : List String
  description : String
  cost : Nat
  health : Nat
  defense : Nat
  power : Nat
  type : String
  keywords : List Keyword
  kins : List String
  abilities : List String
  artists : List String
  set : String
  legality : List (String × String)
  other : List String
  functions : List String

/-- Embeds enum `NumberProperties` from src/cards.rs lines 429-435 (the
numeric field names of the in-src `ReadProperties` capability). -/
inductive NumberProperties where
  | Cost
  | Health
  | Power
  | Defense
deriving DecidableEq, Repr

/-- Embeds `ReadProperties::get_num_property for Card` (src/cards.rs
lines 92-119): `Cost` is always present; `Health`, `Defense` and `Power`
read as absent exactly when the type line contains `"command"`. -/
def Card.get_num_property (c : Card) : NumberProperties → Option Nat
  | .Cost => some c.cost
  | .Health => if strContains c.type "command" then none else some c.health
  | .Defense => if strContains c.type "command" then none else some c.defense
  | .Power => if strContains c.type "command" then none else some c.power

/-- The `Read` view of a `Card` for the search.rs evaluator.  Modelled
from the spec where src/ is silent: the new-lineage `Read for Card` impl
is not under src/; spec section 3.2 says a Card returns `None` only by
the command-type rule, which is exactly the in-src
`Card.get_num_property` above, so each numeric slot is that reading
lifted to a precise constant.  Text, keyword and array fields read
directly; the in-src `Card` has no flavor text or flip cost, which read
as absent. -/
def Card.toView (c : Card) : CardView where
  id := some c.id
  name := some c.name
  type := some c.type
  description := some c.description
  flavorText := none
  kin := some c.kins
  keywords := some c.keywords
  functions := some c.functions
  cost := (c.get_num_property .Cost).map fun n => .Precise (.Const n)
  flipCost := none
  health := (c.get_num_property .Health).map fun n => .Precise (.Const n)
  power := (c.get_num_property .Power).map fun n => .Precise (.Const n)
  defense := (c.get_num_property .Defense).map fun n => .Precise (.Const n)

/-! ## The tokenizer (src/search/query_parser.rs lines 10-210) -/

/-- Embeds enum `Errors` from search.rs lines 25-40.  `RegexErr` carries
the external crate's error rendered to a string. -/
inductive Errors where
  | NonRegexable (s : String)
  | InvalidOr
  | InvalidComparisonString
  | UnknownSubQueryParam (s : String)
  | UnknownStringParam (s : String)
  | InvalidOrdering (s : String)
  | InvalidPolarity
  | NotSortable
  | UnclosedSubquery
  | UnclosedString
  | UnclosedRegex
  | RegexErr (e : String)
  | AttemptedEmptyParamName

/-- Embeds enum `Token` from query_parser.rs lines 10-21. -/
inductive Token where
  | Word (s : String)
  | Param (key value : String)
  | RegexParam (key : String) (r : Regex)
  | SuperParam (key : String) (toks : List Token)
  | Not (toks : List Token)
  | LenientNot (toks : List Token)
  | Group (toks : List Token)
  | Or (a : List Token) (b : Option (List Token))
  | Xor (a : List Token) (b : Option (List Token))

/-- Embeds `Token::polar_wrap` (query_parser.rs lines 23-31): polarity
`True` leaves the token, `False` wraps in `Not`, `Void` in
`LenientNot`. -/
def Token.polar_wrap (t : Token) (polarity : Ternary) : Token :=
  match polarity with
  | .True => t
  | .False => .Not [t]
  | .Void => .LenientNot [t]

/-- Embeds enum `TokenMode` from query_parser.rs lines 33-40. -/
inductive TokenMode where
  | Word
  | Param (name : String)
  | RegexParam (name : String)
  | QParam (name : String)
  | SParam (name : String)
  | Group

/-- Embeds struct `TokenStack` and its `push` rule (query_parser.rs
lines 42-67): pushing onto a pending `Or`/`Xor` fills its right slot. -/
def stackPush (tokens : List Token) (token : Token) : List Token :=
  match tokens.getLast? with
  | none => [token]
  | some (.Or b none) => tokens.dropLast ++ [.Or b (some [token])]
  | some (.Xor b none) => tokens.dropLast ++ [.Xor b (some [token])]
  | some _ => tokens ++ [token]

/-- Embeds enum `CharOrEnd` (query_parser.rs lines 69-72). -/
inductive CharOrEnd where
  | Char (c : Char)
  | End

/-- The input stream of the tokenizer: every character of the query
followed by the `End` marker (query_parser.rs line 81). -/
def charStream (q : String) : List CharOrEnd :=
  q.toList.map .Char ++ [.End]

/-- The mutable locals of `tokenize_query`'s scan loop. -/
structure TokState where
  tokens : List Token
  word : String
  mode : TokenMode
  parenCount : Nat
  polarity : Ternary

/-- The scan loop of `tokenize_query` (query_parser.rs lines 81-208),
one step per `CharOrEnd` of the stream, recursing structurally on the
remaining input.

`rc` models `Regex::new(s).map_err(Errors::RegexErr)`, the external
regex crate's compiler.  `recur` is the nested `tokenize_query` call
performed when a subquery or group closes; `tokenizeLevel` ties the
knot.  The `' '`/`End` and `'/'`//`End` pairs of source arms appear as
two arms with identical bodies. -/
def tokStep (rc : String → Except Errors Regex)
    (recur : String → Except Errors (List Token)) :
    List CharOrEnd → TokState → Except Errors (List Token)
  | [], st => .ok st.tokens
  | ch :: rest, st =>
    match st.mode with
    | .Word =>
      match ch with
      | .Char '-' =>
        match st.polarity with
        | .True => tokStep rc recur rest { st with polarity := .False }
        | .False => tokStep rc recur rest { st with polarity := .Void }
        | .Void => .error .InvalidPolarity
      | .Char '(' =>
        if st.word = "" then
          tokStep rc recur rest { st with mode := .Group }
        else
          tokStep rc recur rest { st with word := st.word.push '(' }
      | .Char ' ' =>
        match st.word with
        | "" => tokStep rc recur rest { st with polarity := .True, word := "" }
        | "OR" =>
          match st.tokens.getLast? with
          | none => .error .InvalidOr
          | some top =>
            tokStep rc recur rest
              { st with
                tokens := stackPush st.tokens.dropLast (.Or [top] none),
                polarity := .True, word := "" }
        | "XOR" =>
          match st.tokens.getLast? with
          | none => .error .InvalidOr
          | some top =>
            tokStep rc recur rest
              { st with
                tokens := stackPush st.tokens.dropLast (.Xor [top] none),
                polarity := .True, word := "" }
        | w =>
          tokStep rc recur rest
            { st with
              tokens := stackPush st.tokens ((Token.Word w).polar_wrap st.polarity),
              polarity := .True, word := "" }
      | .End =>
        match st.word with
        | "" => tokStep rc recur rest { st with polarity := .True, word := "" }
        | "OR" =>
          match st.tokens.getLast? with
          | none => .error .InvalidOr
          | some top =>
            tokStep rc recur rest
              { st with
                tokens := stackPush st.tokens.dropLast (.Or [top] none),
                polarity := .True, word := "" }
        | "XOR" =>
          match st.tokens.getLast? with
          | none => .error .InvalidOr
          | some top =>
            tokStep rc recur rest
              { st with
                tokens := stackPush st.tokens.dropLast (.Xor [top] none),
                polarity := .True, word := "" }
        | w =>
          tokStep rc recur rest
            { st with
              tokens := stackPush st.tokens ((Token.Word w).polar_wrap st.polarity),
              polarity := .True, word := "" }
      | .Char ':' =>
        if st.word = "" then .error .AttemptedEmptyParamName
        else
          tokStep rc recur rest { st with mode := .Param st.word, word := "" }
      | .Char '<' =>
        if st.word = "" then .error .AttemptedEmptyParamName
        else
          tokStep rc recur rest
            { st with mode := .Param st.word, word := "<" }
      | .Char '!' =>
        if st.word = "" then .error .AttemptedEmptyParamName
        else
          tokStep rc recur rest
            { st with mode := .Param st.word, word := "!" }
      | .Char '>' =>
        if st.word = "" then .error .AttemptedEmptyParamName
        else
          tokStep rc recur rest
            { st with mode := .Param st.word, word := ">" }
      | .Char '=' =>
        if st.word = "" then .error .AttemptedEmptyParamName
        else
          tokStep rc recur rest
            { st with mode := .Param st.word, word := "=" }
      | .Char c => tokStep rc recur rest { st with word := st.word.push c }
    | .Param param =>
      match ch with
      | .Char ' ' =>
        tokStep rc recur rest
          { st with
            tokens := stackPush st.tokens
              ((Token.Param param st.word).polar_wrap st.polarity),
            polarity := .True, word := "", mode := .Word }
      | .End =>
        tokStep rc recur rest
          { st with
            tokens := stackPush st.tokens
              ((Token.Param param st.word).polar_wrap st.polarity),
            polarity := .True, word := "", mode := .Word }
      | .Char '"' =>
        if st.word = "" then
          tokStep rc recur rest { st with mode := .QParam param }
        else
          tokStep rc recur rest { st with word := st.word.push '"' }
      | .Char '/' =>
        if st.word = "" then
          tokStep rc recur rest { st with mode := .RegexParam param }
        else
          tokStep rc recur rest { st with word := st.word.push '/' }
      | .Char '(' =>
        if st.word = "" then
          tokStep rc recur rest { st with mode := .SParam param }
        else
          tokStep rc recur rest { st with word := st.word.push '(' }
      | .Char c => tokStep rc recur rest { st with word := st.word.push c }
    | .RegexParam param =>
      match ch with
      | .End =>
        match rc (strToLower st.word) with
        | .error e => .error e
        | .ok regex =>
          tokStep rc recur rest
            { st with
              tokens := stackPush st.tokens
                ((Token.RegexParam param regex).polar_wrap st.polarity),
              polarity := .True, word := "", mode := .Word }
      | .Char '/' =>
        match rc (strToLower st.word) with
        | .error e => .error e
        | .ok regex =>
          tokStep rc recur rest
            { st with
              tokens := stackPush st.tokens
                ((Token.RegexParam param regex).polar_wrap st.polarity),
              polarity := .True, word := "", mode := .Word }
      | .Char c => tokStep rc recur rest { st with word := st.word.push c }
    | .QParam param =>
      match ch with
      | .Char '"' =>
        tokStep rc recur rest
          { st with
            tokens := stackPush st.tokens
              ((Token.Param param st.word).polar_wrap st.polarity),
            polarity := .True, word := "", mode := .Word }
      | .Char c => tokStep rc recur rest { st with word := st.word.push c }
      | .End => .error .UnclosedString
    | .SParam param =>
      match ch with
      | .Char ')' =>
        if st.parenCount = 0 then
          match recur st.word with
          | .error e => .error e
          | .ok sub =>
            tokStep rc recur rest
              { st with
                tokens := stackPush st.tokens
                  ((Token.SuperParam param sub).polar_wrap st.polarity),
                polarity := .True, word := "", mode := .Word }
        else
          tokStep rc recur rest
            { st with parenCount := st.parenCount - 1,
                      word := st.word.push ')' }
      | .Char '(' =>
        tokStep rc recur rest
          { st with parenCount := st.parenCount + 1,
                    word := st.word.push '(' }
      | .Char c => tokStep rc recur rest { st with word := st.word.push c }
      | .End => .error .UnclosedRegex
    | .Group =>
      match ch with
      | .Char ')' =>
        if st.parenCount = 0 then
          match recur st.word with
          | .error e => .error e
          | .ok sub =>
            tokStep rc recur rest
              { st with
                tokens := stackPush st.tokens
                  ((Token.Group sub).polar_wrap st.polarity),
                polarity := .True, word := "", mode := .Word }
        else
          tokStep rc recur rest
            { st with parenCount := st.parenCount - 1,
                      word := st.word.push ')' }
      | .Char '(' =>
        tokStep rc recur rest
          { st with parenCount := st.parenCount + 1,
                    word := st.word.push '(' }
      | .Char c => tokStep rc recur rest { st with word := st.word.push c }
      | .End => .error .UnclosedSubquery

/-- `tokenize_query` at bounded nesting depth: level `fuel + 1` scans
the stream, handing subquery bodies to level `fuel`.  The level-0 value
is unreachable from `tokenize_query`, which supplies more levels than
any possible nesting depth (each nested subquery is strictly shorter
than the input containing it). -/
def tokenizeLevel (rc : String → Except Errors Regex) :
    Nat → String → Except Errors (List Token)
  | 0, _ => .error .UnclosedSubquery
  | fuel + 1, q =>
    tokStep rc (tokenizeLevel rc fuel) (charStream q) ⟨[], "", .Word, 0, .True⟩

/-- Embeds `tokenize_query` (query_parser.rs lines 75-210), supplying
ample nesting depth. -/
def tokenize_query (rc : String → Except Errors Regex) (q : String) :
    Except Errors (List Token) :=
  tokenizeLevel rc (q.length + 1) q

/-- A stand-in for the external regex crate's compiler used where a
concrete run needs one: every pattern compiles (as the real crate does
for the patterns appearing in this file's concrete inputs), and the
matching function is irrelevant to tokenization. -/
def rcAlwaysOk : String → Except Errors Regex :=
  fun s => .ok ⟨s, fun _ => false⟩

/-- Steps 1-4 of the devoured-by resolution of spec section 4.4 as one
function: find the devourers of `dq`, project their devours-keyword
identities, `Or`-fold, and run the search (with the fresh cache the
inner `search` creates); paired with the cache state after the devourer
scan.  Used to state C6 against `matches_query`. -/
def devoureesOf (wc : CardView → String → ℚ) (dq : Query) (nm : String)
    (srt : QuerySort) (cards : List CardView) (cache : Cache) :
    List CardView × Cache :=
  let step := devourersFilter true wc dq cards cache cards
  let q := orFoldQueries (devourerQueries step.1) nm srt
  (applySort wc q (searchFilterInner wc q cards [] cards).1, step.2)

/-- The numeral carried by a comparison. -/
def Comparison.bound : Comparison → Nat
  | .GreaterThan n => n
  | .GreaterThanOrEqual n => n
  | .LowerThanOrEqual n => n
  | .Equal n => n
  | .LowerThan n => n
  | .NotEqual n => n

/-- Whether a slot's numeral fits in `usize`, i.e. the slot denotes a
value constructible in the Rust data model. -/
def slotInRange : MaybeImprecise → Bool
  | .Precise (.Const n) => n ≤ USIZE_MAX
  | .Precise (.Var _) => true
  | .Imprecise c => c.bound ≤ USIZE_MAX

/-- A constant similarity oracle, for concrete instantiations. -/
def wc0 : CardView → String → ℚ := fun _ _ => 0

/-- A view of a command-type card whose numeric stats read as absent,
for concrete instantiations. -/
def commandView : CardView :=
  ⟨some "c1", some "Order", some "command", some "d", none, some [], some [],
   some [], some (.Precise (.Const 2)), none, none, none, none⟩

/-- A complete command-type card record, for concrete instantiations. -/
def commandCard : Card :=
  ⟨"c1", "Order", [], "d", 2, 0, 0, 0, "command", [], [], [], [], "s", [],
   [], []⟩

/-! ## Supporting lemmas -/

/-- `From<bool>` lands on `True` exactly for `true`. -/
theorem Ternary.ofBool_eq_true_iff (b : Bool) :
    Ternary.ofBool b = .True ↔ b = true := by
  cases b <;> simp [Ternary.ofBool]

/-- `From<bool>` never produces `Void`. -/
theorem Ternary.ofBool_ne_void (b : Bool) : Ternary.ofBool b ≠ .Void := by
  cases b <;> simp [Ternary.ofBool]

/-- In the `usize` range, the wrapping decrement is the plain one. -/
theorem wrapSub1_eq {k : Nat} (h1 : 1 ≤ k) (h2 : k ≤ USIZE_MAX) :
    wrapSub1 k = k - 1 := by
  unfold wrapSub1 USIZE_MAX at *
  omega

/-! ## C1 -/

/-- C1: the claim says evaluation is total for every `usize` bound `k`
including `k = 0` and `k = usize::MAX`.  The code is not: `Compare::lt`
computes `comparison - 1`, which underflows at `k = 0` (a panic in debug
builds, recorded as `none` by the checked model), and `Compare::gt`
computes `comparison + 1`, which overflows at `k = usize::MAX`.  In
release builds the subtraction wraps to `usize::MAX`, so `lt 0` on the
slot `> 5` returns `True` although the interval has no value below 0. -/
theorem C1_compare_overflow_failure :
    MaybeImprecise.ltChecked (.Imprecise (.GreaterThan 5)) 0 = none ∧
    MaybeImprecise.gtChecked (.Imprecise (.LowerThan 5)) USIZE_MAX = none ∧
    MaybeImprecise.lt (.Imprecise (.GreaterThan 5)) 0 = .True := by
  refine ⟨rfl, ?_, ?_⟩ <;> decide

/-! ## C2 -/

/-- C2 counterexample: the claim says `lt_eq(k)` on the slot `>= m` is
`True` iff `m ≤ k`, and `gt_eq(k)` on `<= m` is `True` iff `m ≥ k`.  At
`m = k = 3` both memberships hold yet the code returns `False`, because
the source merges the `GreaterThan`/`GreaterThanOrEqual` (resp.
`LowerThan`/`LowerThanOrEqual`) arms with a strict test. -/
theorem C2_boundary_counterexample :
    MaybeImprecise.lt_eq (.Imprecise (.GreaterThanOrEqual 3)) 3 = .False ∧
    (3 : Nat) ≤ 3 ∧
    MaybeImprecise.gt_eq (.Imprecise (.LowerThanOrEqual 3)) 3 = .False ∧
    (3 : Nat) ≥ 3 := by
  decide

/-- C2 amended: the full table of `lt`, `lt_eq` and `gt_eq` on imprecise
slots.  `lt_eq` on `> m` and `>= m` is `True` iff `m < k` (strict also
in the `>=` case), `gt_eq` on `< m` and `<= m` is `True` iff `m > k`
(strict also in the `<=` case); the degenerate slot `= m` follows the
interval reading; `lt`/`lt_eq` on lower-bounded-free slots and
`gt_eq` on upper-bounded-free slots are constantly `True`; `lt` on
`> m` tests `m < k - 1` for `k ≥ 1` (and wraps at `k = 0`, see C1); no
result is `Void`. -/
theorem C2_lt_lteq_gteq_table (m k : Nat) (hk : k ≤ USIZE_MAX) :
    (MaybeImprecise.lt_eq (.Imprecise (.GreaterThan m)) k = .True ↔ m < k) ∧
    (MaybeImprecise.lt_eq (.Imprecise (.GreaterThanOrEqual m)) k = .True ↔ m < k) ∧
    (MaybeImprecise.lt_eq (.Imprecise (.Equal m)) k = .True ↔ m ≤ k) ∧
    MaybeImprecise.lt_eq (.Imprecise (.LowerThan m)) k = .True ∧
    MaybeImprecise.lt_eq (.Imprecise (.LowerThanOrEqual m)) k = .True ∧
    MaybeImprecise.lt_eq (.Imprecise (.NotEqual m)) k = .True ∧
    MaybeImprecise.gt_eq (.Imprecise (.GreaterThan m)) k = .True ∧
    MaybeImprecise.gt_eq (.Imprecise (.GreaterThanOrEqual m)) k = .True ∧
    MaybeImprecise.gt_eq (.Imprecise (.NotEqual m)) k = .True ∧
    (MaybeImprecise.gt_eq (.Imprecise (.Equal m)) k = .True ↔ m ≥ k) ∧
    (MaybeImprecise.gt_eq (.Imprecise (.LowerThan m)) k = .True ↔ m > k) ∧
    (MaybeImprecise.gt_eq (.Imprecise (.LowerThanOrEqual m)) k = .True ↔ m > k) ∧
    MaybeImprecise.lt (.Imprecise (.LowerThan m)) k = .True ∧
    MaybeImprecise.lt (.Imprecise (.LowerThanOrEqual m)) k = .True ∧
    MaybeImprecise.lt (.Imprecise (.NotEqual m)) k = .True ∧
    (MaybeImprecise.lt (.Imprecise (.GreaterThanOrEqual m)) k = .True ↔ m < k) ∧
    (MaybeImprecise.lt (.Imprecise (.Equal m)) k = .True ↔ m < k) ∧
    (1 ≤ k →
      (MaybeImprecise.lt (.Imprecise (.GreaterThan m)) k = .True ↔ m < k - 1)) ∧
    (∀ c : Comparison,
      MaybeImprecise.lt_eq (.Imprecise c) k ≠ .Void ∧
      MaybeImprecise.gt_eq (.Imprecise c) k ≠ .Void ∧
      MaybeImprecise.lt (.Imprecise c) k ≠ .Void) := by
  refine ⟨by simp [MaybeImprecise.lt_eq, Ternary.ofBool_eq_true_iff],
    by simp [MaybeImprecise.lt_eq, Ternary.ofBool_eq_true_iff],
    by simp [MaybeImprecise.lt_eq, Ternary.ofBool_eq_true_iff],
    rfl, rfl, rfl, rfl, rfl, rfl,
    by simp [MaybeImprecise.gt_eq, Ternary.ofBool_eq_true_iff],
    by simp [MaybeImprecise.gt_eq, Ternary.ofBool_eq_true_iff],
    by simp [MaybeImprecise.gt_eq, Ternary.ofBool_eq_true_iff],
    rfl, rfl, rfl,
    by simp [MaybeImprecise.lt, Ternary.ofBool_eq_true_iff],
    by simp [MaybeImprecise.lt, Ternary.ofBool_eq_true_iff],
    fun h1 => by
      simp [MaybeImprecise.lt, Ternary.ofBool_eq_true_iff, wrapSub1_eq h1 hk],
    fun c => by
      cases c <;>
        simp [MaybeImprecise.lt_eq, MaybeImprecise.gt_eq, MaybeImprecise.lt,
          Ternary.ofBool_ne_void]⟩

/-- C2 witness: the amended table applied at `m = 3`, `k = 3`. -/
theorem C2_lt_lteq_gteq_table_witness :
    MaybeImprecise.lt_eq (.Imprecise (.GreaterThanOrEqual 3)) 3 ≠ .True ∧
    ¬ (3 : Nat) < 3 := by
  have h := C2_lt_lteq_gteq_table 3 3 (by decide)
  exact ⟨fun hc => absurd (h.2.1.mp hc) (by omega), by omega⟩

/-! ## C3 -/

/-- C3: `eq k` on an imprecise slot is `True` exactly when the interval
meets `{k}`: `> m` iff `k > m`, `>= m` iff `k ≥ m`, `< m` iff `k < m`,
`<= m` iff `k ≤ m`, `= m` iff `k = m`, `!= m` iff `k ≠ m`; otherwise it
is `False` (never `Void`). -/
theorem C3_eq_intersects_table (m k : Nat) :
    (MaybeImprecise.eq (.Imprecise (.GreaterThan m)) k = .True ↔ k > m) ∧
    (MaybeImprecise.eq (.Imprecise (.GreaterThanOrEqual m)) k = .True ↔ k ≥ m) ∧
    (MaybeImprecise.eq (.Imprecise (.LowerThan m)) k = .True ↔ k < m) ∧
    (MaybeImprecise.eq (.Imprecise (.LowerThanOrEqual m)) k = .True ↔ k ≤ m) ∧
    (MaybeImprecise.eq (.Imprecise (.Equal m)) k = .True ↔ k = m) ∧
    (MaybeImprecise.eq (.Imprecise (.NotEqual m)) k = .True ↔ k ≠ m) ∧
    (∀ c : Comparison, MaybeImprecise.eq (.Imprecise c) k ≠ .Void) := by
  refine ⟨by simp [MaybeImprecise.eq, Ternary.ofBool_eq_true_iff],
    by simp [MaybeImprecise.eq, Ternary.ofBool_eq_true_iff],
    by simp [MaybeImprecise.eq, Ternary.ofBool_eq_true_iff],
    by simp [MaybeImprecise.eq, Ternary.ofBool_eq_true_iff],
    by simp [MaybeImprecise.eq, Ternary.ofBool_eq_true_iff],
    by simp [MaybeImprecise.eq, Ternary.ofBool_eq_true_iff],
    fun c => by
      cases c <;> simp [MaybeImprecise.eq, Ternary.ofBool_ne_void]⟩

/-! ## C9 -/

/-- C9: the claim says `is_same_or_child` is reflexive, in particular at
`CultOfNa`, with `get_equalness` 1.0 there.  The code's match has no
`(CultOfNa, CultOfNa)` arm, so the pair falls to the catch-all `false`
arm and the equalness is 0, contradicting the function's own doc comment
("returns true if `other` is the same kin"). -/
theorem C9_cultofna_not_reflexive :
    Kin.is_same_or_child .CultOfNa .CultOfNa = false ∧
    Kin.get_equalness .CultOfNa .CultOfNa = 0 := by
  exact ⟨rfl, rfl⟩

/-- Absorption for the restriction fold's accumulator. -/
theorem Ternary.true_and (x : Ternary) : Ternary.and .True x = x := by
  cases x <;> rfl

/-! ## C4 -/

/-- C4: the ternary connectives realise the section 4.3 tables —
`and = min` and `or = max` under `Void < False < True`, `not` swaps
`True`/`False` and fixes `Void`, `xor` follows the stated table — and
for every card and query, a `Void` evaluation stays `Void` under `Not`
and becomes `True` under `LenientNot`. -/
theorem C4_ternary_algebra :
    (∀ x y : Ternary, x.and y = Ternary.andTable x y) ∧
    (∀ x y : Ternary, x.or y = Ternary.orTable x y) ∧
    (∀ x : Ternary, x.not = Ternary.notTable x) ∧
    (∀ x y : Ternary, x.xor y = Ternary.xorTable x y) ∧
    (∀ (wc : CardView → String → ℚ) (c : CardView) (q : Query)
        (cards : List CardView) (cache : Cache) (nm : String) (srt : QuerySort),
      (matches_query wc c q cards cache).1 = .Void →
        (matches_query wc c (.mk nm [.Not q] srt) cards cache).1 = .Void ∧
        (matches_query wc c (.mk nm [.LenientNot q] srt) cards cache).1 = .True) := by
  refine ⟨fun x y => by cases x <;> cases y <;> rfl,
    fun x y => by cases x <;> cases y <;> rfl,
    fun x => by cases x <;> rfl,
    fun x y => by cases x <;> cases y <;> rfl,
    fun wc c q cards cache nm srt h => ?_⟩
  rcases hE : matchesQueryAux true wc c q cards cache with ⟨t, ch⟩
  rw [matches_query, hE] at h
  simp only at h
  subst h
  constructor <;>
    simp [matches_query, matchesQueryAux, evalRestrictions, evalRestriction,
      hE, Ternary.true_and, Ternary.not]

/-- C4 witness: on a command-type card the health comparison evaluates
`Void`, its `Not` stays `Void` and its `LenientNot` becomes `True`. -/
theorem C4_ternary_algebra_witness :
    (matches_query wc0 commandView
      (.mk "" [.Not (.mk "" [.NumberComparison .Health (.Equal 0)] .None)] .None)
      [] []).1 = .Void ∧
    (matches_query wc0 commandView
      (.mk "" [.LenientNot (.mk "" [.NumberComparison .Health (.Equal 0)] .None)] .None)
      [] []).1 = .True := by
  have h := C4_ternary_algebra.2.2.2.2 wc0 commandView
    (.mk "" [.NumberComparison .Health (.Equal 0)] .None) [] [] "" .None
    (by simp [matches_query, matchesQueryAux, evalRestrictions, evalRestriction,
      CardView.get_num_property, Comparison.compareOpt, Ternary.true_and,
      commandView])
  exact h

/-! ## C5 -/

/-- C5: on a card whose type line contains `"command"`, reading health,
defense or power yields `None` (not `Some 0`), every `NumberComparison`
on those fields evaluates to `Void`, and cost always reads present. -/
theorem C5_command_carveout :
    (∀ c : Card, strContains c.type "command" = true →
      c.get_num_property .Health = none ∧
      c.get_num_property .Defense = none ∧
      c.get_num_property .Power = none) ∧
    (∀ c : Card, c.get_num_property .Cost = some c.cost) ∧
    (∀ (wc : CardView → String → ℚ) (c : Card),
      strContains c.type "command" = true →
      ∀ (cmp : Comparison) (fld : Number),
        fld = .Health ∨ fld = .Power ∨ fld = .Defense →
        ∀ (nm : String) (srt : QuerySort) (cards : List CardView) (cache : Cache),
          matches_query wc c.toView (.mk nm [.NumberComparison fld cmp] srt)
            cards cache = (.Void, cache)) := by
  refine ⟨fun c h => ?_, fun c => rfl, fun wc c h cmp fld hfld nm srt cards cache => ?_⟩
  · simp [Card.get_num_property, h]
  · rcases hfld with h1 | h1 | h1 <;> subst h1 <;>
      simp [matches_query, matchesQueryAux, evalRestrictions, evalRestriction,
        CardView.get_num_property, Card.toView, Card.get_num_property, h,
        Comparison.compareOpt, Ternary.true_and]

/-- C5 witness: the carve-out at a concrete command card. -/
theorem C5_command_carveout_witness :
    commandCard.get_num_property .Health = none ∧
    commandCard.get_num_property .Cost = some 2 ∧
    matches_query wc0 commandCard.toView
      (.mk "" [.NumberComparison .Power (.GreaterThan 1)] .None) [] [] =
      (.Void, []) := by
  have h := C5_command_carveout
  exact ⟨(h.1 commandCard (by decide)).1, h.2.1 commandCard,
    h.2.2 wc0 commandCard (by decide) (.GreaterThan 1) .Power (by simp) "" .None [] []⟩

/-! ## C6 -/

/-- C6: evaluating `DevouredBy(q)` with no cache entry under the
`Display` rendering of `q` computes the devouree list by the section 4.4
algorithm (`devoureesOf`: filter devourers, project their
devours-keyword identities, `Or`-fold, search) and stores it under that
key; with an entry present, the stored list is reused and the cache is
unchanged; in both cases the card matches exactly when its name equals
the name of some card of the list, never `Void`. -/
theorem C6_devoured_by_cache (wc : CardView → String → ℚ) (c : CardView)
    (dq : Query) (cards : List CardView) (cache : Cache) (nm : String)
    (srt : QuerySort) :
    (cacheLookup dq.render cache = none →
      matches_query wc c (.mk nm [.DevouredBy dq] srt) cards cache =
        ((if (devoureesOf wc dq nm srt cards cache).1.any
              (fun x => x.name == c.name) then .True else .False),
         cacheInsert dq.render (devoureesOf wc dq nm srt cards cache).1
           (devoureesOf wc dq nm srt cards cache).2)) ∧
    (∀ lst, cacheLookup dq.render cache = some lst →
      matches_query wc c (.mk nm [.DevouredBy dq] srt) cards cache =
        ((if lst.any (fun x => x.name == c.name) then .True else .False),
         cache)) ∧
    (matches_query wc c (.mk nm [.DevouredBy dq] srt) cards cache).1 ≠ .Void := by
  refine ⟨fun h => ?_, fun lst h => ?_, ?_⟩
  · simp [matches_query, matchesQueryAux, evalRestrictions, evalRestriction,
      h, devoureesOf, Ternary.true_and]
  · simp [matches_query, matchesQueryAux, evalRestrictions, evalRestriction,
      h, Ternary.true_and]
  · simp only [matches_query, matchesQueryAux, evalRestrictions,
      evalRestriction]
    rcases hc : cacheLookup dq.render cache with _ | lst <;>
      simp [hc, Ternary.true_and] <;> split <;> simp

/-- C6 witness: over an empty catalogue and empty cache, the first
evaluation stores the empty devouree list under the key `"Cards"` (the
rendering of the empty subquery) and yields `False`; with a cache entry
containing a card of the same name, the stored list is reused, the
evaluation yields `True` and the cache is unchanged. -/
theorem C6_devoured_by_cache_witness :
    matches_query wc0 commandView (.mk "" [.DevouredBy (.mk "" [] .None)] .None)
      [] [] = (.False, [("Cards", [])]) ∧
    matches_query wc0 commandView (.mk "" [.DevouredBy (.mk "" [] .None)] .None)
      [] [("Cards", [commandView])] = (.True, [("Cards", [commandView])]) := by
  constructor
  · have h := (C6_devoured_by_cache wc0 commandView (.mk "" [] .None) [] [] ""
      .None).1 rfl
    rw [h]
    simp [devoureesOf, devourersFilter, searchFilterInner, applySort,
      orFoldQueries, devourerQueries, cacheInsert, Query.render, renderRList,
      Query.sort]
  · have h := (C6_devoured_by_cache wc0 commandView (.mk "" [] .None) []
      [("Cards", [commandView])] "" .None).2.1 [commandView] rfl
    rw [h]
    simp [commandView]

/-! ## C7 -/

/-- C7 counterexample: the claim says an unterminated `field:/regex`
with no closing `/` is rejected, but tokenizing `"t:/abc"` succeeds —
the `RegexParam` arm treats end-of-input exactly like the closing
slash. -/
theorem C7_unterminated_regex_accepted :
    tokenize_query rcAlwaysOk "t:/abc" =
      .ok [.RegexParam "t" ⟨"abc", fun _ => false⟩] := rfl

/-- C7 amended: reaching end-of-input in the `QParam`, `SParam` or
`Group` states is an error (`UnclosedString`, `UnclosedRegex`,
`UnclosedSubquery` respectively), but in the `RegexParam` state it
completes the regex token as if the closing slash were present,
succeeding whenever the accumulated lowercased pattern compiles. -/
theorem C7_eof_in_delimited_states (rc : String → Except Errors Regex)
    (recur : String → Except Errors (List Token)) (tokens : List Token)
    (word : String) (paren : Nat) (pol : Ternary) (p : String) :
    tokStep rc recur [.End] ⟨tokens, word, .QParam p, paren, pol⟩ =
      .error .UnclosedString ∧
    tokStep rc recur [.End] ⟨tokens, word, .SParam p, paren, pol⟩ =
      .error .UnclosedRegex ∧
    tokStep rc recur [.End] ⟨tokens, word, .Group, paren, pol⟩ =
      .error .UnclosedSubquery ∧
    (∀ r, rc (strToLower word) = .ok r →
      tokStep rc recur [.End] ⟨tokens, word, .RegexParam p, paren, pol⟩ =
        .ok (stackPush tokens ((Token.RegexParam p r).polar_wrap pol))) := by
  refine ⟨rfl, rfl, rfl, fun r h => ?_⟩
  simp [tokStep, h]

/-- C7 witness: the amended behaviour at concrete inputs. -/
theorem C7_eof_in_delimited_states_witness :
    tokStep rcAlwaysOk (fun _ => .error .InvalidOr) [.End]
      ⟨[], "abc", .QParam "t", 0, .True⟩ = .error .UnclosedString ∧
    tokStep rcAlwaysOk (fun _ => .error .InvalidOr) [.End]
      ⟨[], "abc", .RegexParam "t", 0, .True⟩ =
      .ok [.RegexParam "t" ⟨"abc", fun _ => false⟩] := by
  have h := C7_eof_in_delimited_states rcAlwaysOk (fun _ => .error .InvalidOr)
    [] "abc" 0 .True "t"
  exact ⟨h.1, h.2.2.2 ⟨"abc", fun _ => false⟩ rfl⟩

/-! ## C10 -/

/-- C10: in the `Word` state every `-` acts as a polarity marker
regardless of position — it never enters the word, it advances the
polarity `True → False → Void`, and a third one is the invalid-polarity
error — so no bareword token carries a hyphen: `"a-b"` becomes the word
`"ab"` wrapped in `Not`, two hyphens wrap in `LenientNot`, and three
hyphens in one word-segment are rejected. -/
theorem C10_hyphen_polarity :
    (∀ (rc : String → Except Errors Regex)
        (recur : String → Except Errors (List Token)) (tokens : List Token)
        (word : String) (paren : Nat) (rest : List CharOrEnd),
      tokStep rc recur (.Char '-' :: rest) ⟨tokens, word, .Word, paren, .True⟩ =
        tokStep rc recur rest ⟨tokens, word, .Word, paren, .False⟩ ∧
      tokStep rc recur (.Char '-' :: rest) ⟨tokens, word, .Word, paren, .False⟩ =
        tokStep rc recur rest ⟨tokens, word, .Word, paren, .Void⟩ ∧
      tokStep rc recur (.Char '-' :: rest) ⟨tokens, word, .Word, paren, .Void⟩ =
        .error .InvalidPolarity) ∧
    tokenize_query rcAlwaysOk "a-b" = .ok [.Not [.Word "ab"]] ∧
    tokenize_query rcAlwaysOk "a-b-c" = .ok [.LenientNot [.Word "abc"]] ∧
    tokenize_query rcAlwaysOk "a-b-c-d" = .error .InvalidPolarity := by
  exact ⟨fun rc recur tokens word paren rest => ⟨rfl, rfl, rfl⟩, rfl, rfl, rfl⟩

/-! ## C8 -/

/-- The digit loop parses a mapped digit list into the folded value. -/
theorem parseDigitsAux_map (M : List Nat) (a : Nat) (h : ∀ d ∈ M, d < 10) :
    parseDigitsAux (M.map Nat.digitChar) a =
      some (M.foldl (fun x d => x * 10 + d) a) := by
  induction M generalizing a with
  | nil => rfl
  | cons d M ih =>
    have hd : d < 10 := h d (by simp)
    have hv : digitVal? (Nat.digitChar d) = some d := by
      interval_cases d <;> decide
    simp only [List.map_cons, parseDigitsAux, hv, List.foldl_cons]
    exact ih _ (fun x hx => h x (by simp [hx]))

/-- Folding decimal digits most-significant-first recovers the value. -/
theorem foldl_reverse_ofDigits (L : List Nat) (a : Nat) :
    L.reverse.foldl (fun x d => x * 10 + d) a =
      a * 10 ^ L.length + Nat.ofDigits 10 L := by
  induction L generalizing a with
  | nil => simp
  | cons d L ih =>
    simp only [List.reverse_cons, List.foldl_append, List.foldl_cons,
      List.foldl_nil, ih, List.length_cons, Nat.ofDigits_cons, pow_succ]
    ring

/-- The decimal rendering opens with a digit character. -/
theorem natChars_head (n : Nat) :
    ∃ d L, d < 10 ∧ natChars n = Nat.digitChar d :: L := by
  by_cases h0 : n = 0
  · refine ⟨0, [], by omega, ?_⟩
    simp [h0, natChars]
    rfl
  · rcases hrev : (Nat.digits 10 n).reverse with _ | ⟨d, L⟩
    · exfalso
      apply Nat.digits_ne_nil_iff_ne_zero.mpr h0
      simpa using congrArg List.reverse hrev
    · refine ⟨d, L.map Nat.digitChar, ?_, ?_⟩
      · have hm : d ∈ (Nat.digits 10 n).reverse := by rw [hrev]; simp
        exact @Nat.digits_lt_base 10 n d (by omega) (by simpa using hm)
      · simp [natChars, h0, ← List.map_reverse, hrev]

/-- Parsing the decimal rendering of an in-range `usize` recovers it. -/
theorem parseUsizeChars_natChars (n : Nat) (h : n ≤ USIZE_MAX) :
    parseUsizeChars (natChars n) = some n := by
  have hparse : parseDigitsAux (natChars n) 0 = some n := by
    by_cases h0 : n = 0
    · subst h0; decide
    · have hdig : ∀ d ∈ (Nat.digits 10 n).reverse, d < 10 := fun d hd =>
        @Nat.digits_lt_base 10 n d (by omega) (by simpa using hd)
      have hchars :
          natChars n = ((Nat.digits 10 n).reverse).map Nat.digitChar := by
        simp [natChars, h0, List.map_reverse]
      rw [hchars, parseDigitsAux_map _ _ hdig, foldl_reverse_ofDigits]
      simp [Nat.ofDigits_digits]
  obtain ⟨d, L, hd, hL⟩ := natChars_head n
  have hplus : Nat.digitChar d ≠ '+' := by interval_cases d <;> decide
  rw [hL] at hparse ⊢
  simp [parseUsizeChars, hplus, hparse, h]

/-- Character-list form of the serialized comparator strings. -/
theorem toList_prefix_natToString (p : String) (n : Nat) :
    (p ++ natToString n).toList = p.toList ++ natChars n := by
  show (p ++ natToString n).data = p.data ++ natChars n
  rw [String.data_append]
  rfl

/-- C8 counterexample: the claim includes slots `Imprecise(Equal(n))`,
but `Imprecise(Equal(3))` serializes as the bare number `3`, which
deserializes to the distinct value `Precise(Const(3))`. -/
theorem C8_equal_slot_roundtrip_fails :
    MaybeImprecise.deserialize
        (MaybeImprecise.serialize (.Imprecise (.Equal 3))) =
      some (.Precise (.Const 3)) ∧
    MaybeImprecise.Precise (.Const 3) ≠ .Imprecise (.Equal 3) := by
  constructor
  · show MaybeImprecise.deserialize (.num 3) = _
    simp [MaybeImprecise.deserialize, USIZE_MAX]
  · decide

/-- C8 amended: deserialization inverts serialization on every numeric
slot of the data model except `Imprecise(Equal(n))` (which collapses to
the bare number, see the counterexample): any in-range slot that is not
an `Equal` comparator and whose variable (if any) is a letter
round-trips to itself. -/
theorem C8_slot_roundtrip (m : MaybeImprecise)
    (hvar : ∀ c, m = .Precise (.Var c) → c.isAlpha = true)
    (hne : ∀ n, m ≠ .Imprecise (.Equal n))
    (hrange : slotInRange m = true) :
    MaybeImprecise.deserialize (MaybeImprecise.serialize m) = some m := by
  match m with
  | .Precise (.Const n) =>
    simp only [slotInRange, decide_eq_true_eq] at hrange
    simp [MaybeImprecise.serialize, MaybeVar.serialize,
      MaybeImprecise.deserialize, hrange]
  | .Precise (.Var c) =>
    have := hvar c rfl
    simp [MaybeImprecise.serialize, MaybeVar.serialize,
      MaybeImprecise.deserialize, str_as_maybe_var, String.singleton, this]
  | .Imprecise (.Equal n) => exact absurd rfl (hne n)
  | .Imprecise (.GreaterThan n) =>
    simp only [slotInRange, Comparison.bound, decide_eq_true_eq] at hrange
    have hparse := parseUsizeChars_natChars n hrange
    obtain ⟨d, L, hd, hL⟩ := natChars_head n
    have hne1 : Nat.digitChar d ≠ '=' := by interval_cases d <;> decide
    have houter : parseUsizeChars ('>' :: Nat.digitChar d :: L) = none := by
      simp [parseUsizeChars, parseDigitsAux, digitVal?]
    simp only [MaybeImprecise.serialize, MaybeImprecise.deserialize,
      str_as_maybe_var, text_comparison_parse, toList_prefix_natToString]
    rw [hL] at hparse ⊢
    simp [houter, hparse, hne1]
  | .Imprecise (.GreaterThanOrEqual n) =>
    simp only [slotInRange, Comparison.bound, decide_eq_true_eq] at hrange
    have hparse := parseUsizeChars_natChars n hrange
    have houter : parseUsizeChars ('>' :: '=' :: natChars n) = none := by
      simp [parseUsizeChars, parseDigitsAux, digitVal?]
    simp only [MaybeImprecise.serialize, MaybeImprecise.deserialize,
      str_as_maybe_var, text_comparison_parse, toList_prefix_natToString]
    simp [houter, hparse]
  | .Imprecise (.LowerThan n) =>
    simp only [slotInRange, Comparison.bound, decide_eq_true_eq] at hrange
    have hparse := parseUsizeChars_natChars n hrange
    obtain ⟨d, L, hd, hL⟩ := natChars_head n
    have hne1 : Nat.digitChar d ≠ '=' := by interval_cases d <;> decide
    have houter : parseUsizeChars ('<' :: Nat.digitChar d :: L) = none := by
      simp [parseUsizeChars, parseDigitsAux, digitVal?]
    simp only [MaybeImprecise.serialize, MaybeImprecise.deserialize,
      str_as_maybe_var, text_comparison_parse, toList_prefix_natToString]
    rw [hL] at hparse ⊢
    simp [houter, hparse, hne1]
  | .Imprecise (.LowerThanOrEqual n) =>
    simp only [slotInRange, Comparison.bound, decide_eq_true_eq] at hrange
    have hparse := parseUsizeChars_natChars n hrange
    have houter : parseUsizeChars ('<' :: '=' :: natChars n) = none := by
      simp [parseUsizeChars, parseDigitsAux, digitVal?]
    simp only [MaybeImprecise.serialize, MaybeImprecise.deserialize,
      str_as_maybe_var, text_comparison_parse, toList_prefix_natToString]
    simp [houter, hparse]
  | .Imprecise (.NotEqual n) =>
    simp only [slotInRange, Comparison.bound, decide_eq_true_eq] at hrange
    have hparse := parseUsizeChars_natChars n hrange
    have houter : parseUsizeChars ('!' :: '=' :: natChars n) = none := by
      simp [parseUsizeChars, parseDigitsAux, digitVal?]
    simp only [MaybeImprecise.serialize, MaybeImprecise.deserialize,
      str_as_maybe_var, text_comparison_parse, toList_prefix_natToString]
    simp [houter, hparse]

/-- C8 witness: the round-trip at the slot `> 3`. -/
theorem C8_slot_roundtrip_witness :
    MaybeImprecise.deserialize
        (MaybeImprecise.serialize (.Imprecise (.GreaterThan 3))) =
      some (.Imprecise (.GreaterThan 3)) :=
  C8_slot_roundtrip (.Imprecise (.GreaterThan 3))
    (fun c h => by cases h) (fun n h => by cases h) (by decide)

/-! ## Faithfulness of the `allowDB` flag

The flag exists only for termination; the two lemmas below discharge the
modelling debt: the queries the inner search receives are
`DevouredBy`-free, and on such queries the evaluator ignores the flag
entirely. -/

/-- `dbFreeL` distributes over append. -/
theorem dbFreeL_append (a b : List QueryRestriction) :
    dbFreeL (a ++ b) = (dbFreeL a && dbFreeL b) := by
  induction a with
  | nil => simp [dbFreeL]
  | cons r rest ih => simp [dbFreeL, ih, Bool.and_assoc]

/-- The `get_as_query` projection emits no `DevouredBy` restriction. -/
theorem get_as_query_dbFree (cid : CardId) :
    dbFreeL cid.get_as_query = true := by
  unfold CardId.get_as_query
  simp only [dbFreeL_append, Bool.and_eq_true]
  refine ⟨⟨⟨⟨⟨⟨⟨⟨?_, ?_⟩, ?_⟩, ?_⟩, ?_⟩, ?_⟩, ?_⟩, ?_⟩, ?_⟩
  · rcases cid.name with _ | n <;> simp [dbFreeL, dbFreeR]
  · rcases cid.type with _ | t <;> simp [dbFreeL, dbFreeR]
  · rcases cid.description with _ | d <;> simp [dbFreeL, dbFreeR]
  · rcases cid.keywords with _ | kws
    · simp [dbFreeL]
    · induction kws with
      | nil => simp [dbFreeL]
      | cons kw rest ih => simpa [dbFreeL, dbFreeR] using ih
  · rcases cid.cost with _ | c <;> simp [dbFreeL, dbFreeR]
  · rcases cid.health with _ | c <;> simp [dbFreeL, dbFreeR]
  · rcases cid.power with _ | c <;> simp [dbFreeL, dbFreeR]
  · rcases cid.defense with _ | c <;> simp [dbFreeL, dbFreeR]
  · rcases cid.flip_cost with _ | c <;> simp [dbFreeL, dbFreeR]

/-- Every query the devourer projection produces is `DevouredBy`-free. -/
theorem devourerQueries_dbFree (ds : List CardView) :
    ∀ q ∈ devourerQueries ds, dbFreeQ q = true := by
  intro q hq
  simp only [devourerQueries, List.mem_filterMap] at hq
  obtain ⟨d, _, hf⟩ := hq
  rcases hk : d.keywords with _ | kws <;> rw [hk] at hf <;> (try dsimp only at hf)
  · simp at hf
  · rcases hfind : kws.find? fun kw => kw.name == "devours" with _ | kw <;>
      rw [hfind] at hf <;> (try dsimp only at hf)
    · simp at hf
    · rcases hd : kw.data with _ | kd <;> rw [hd] at hf <;> (try dsimp only at hf)
      · simp at hf
      · rcases kd with cid | s <;> (try dsimp only at hf)
        · simp only [Option.some.injEq] at hf
          subst hf
          simpa [dbFreeQ] using get_as_query_dbFree cid
        · simp at hf

/-- The `Or`-fold of `DevouredBy`-free queries is `DevouredBy`-free. -/
theorem orFoldQueries_dbFree (qs : List Query) (nm : String) (srt : QuerySort)
    (h : ∀ q ∈ qs, dbFreeQ q = true) :
    dbFreeQ (orFoldQueries qs nm srt) = true := by
  rcases qs with _ | ⟨q0, rest⟩
  · simp [orFoldQueries, dbFreeQ, dbFreeL]
  · have key : ∀ (t : List Query) (acc : Query), dbFreeQ acc = true →
        (∀ q ∈ t, dbFreeQ q = true) →
        dbFreeQ (t.foldl
          (fun first second =>
            Query.mk "" [QueryRestriction.Or first second] QuerySort.None)
          acc) = true := by
      intro t
      induction t with
      | nil => intro acc ha _; simpa using ha
      | cons x rest ih =>
        intro acc ha hall
        refine ih _ ?_ (fun q hq => hall q (by simp [hq]))
        simp [dbFreeQ, dbFreeL, dbFreeR, ha, hall x (by simp)]
    have h0 : dbFreeQ q0 = true := h q0 (by simp)
    have hall : ∀ q ∈ rest, dbFreeQ q = true := fun q hq => h q (by simp [hq])
    have hf := key rest q0 h0 hall
    rcases hfold : rest.foldl
        (fun first second =>
          Query.mk "" [QueryRestriction.Or first second] QuerySort.None) q0
      with ⟨n, rs, s⟩
    rw [hfold] at hf
    simpa [orFoldQueries, hfold, dbFreeQ] using hf

/-- On a `DevouredBy`-free query the evaluator never reads the flag:
`matchesQueryAux b` agrees with `matchesQueryAux true`, so the inner
search's flag-off evaluation is exactly the source's recursive
`matches_query`. -/
theorem matchesQueryAux_db_agnostic (b : Bool) (wc : CardView → String → ℚ)
    (card : CardView) (query : Query) (cards : List CardView) (cache : Cache)
    (hq : dbFreeQ query = true) :
    matchesQueryAux b wc card query cards cache =
      matchesQueryAux true wc card query cards cache := by
  refine matchesQueryAux.induct
    (fun b wc card q cards cache =>
      dbFreeQ q = true →
        matchesQueryAux b wc card q cards cache =
          matchesQueryAux true wc card q cards cache)
    (fun b wc card nm srt rs cards cache f =>
      dbFreeL rs = true →
        evalRestrictions b wc card nm srt rs cards cache f =
          evalRestrictions true wc card nm srt rs cards cache f)
    (fun b wc card nm srt r cards cache =>
      dbFreeR r = true →
        evalRestriction b wc card nm srt r cards cache =
          evalRestriction true wc card nm srt r cards cache)
    (fun _ _ _ _ _ => True)
    (fun b wc dq allCards cache rem =>
      dbFreeQ dq = true →
        devourersFilter b wc dq allCards cache rem =
          devourersFilter true wc dq allCards cache rem)
    (fun b wc dq cards cache kws =>
      dbFreeQ dq = true →
        devoursAny b wc dq cards cache kws =
          devoursAny true wc dq cards cache kws)
    ?_ ?_ ?_ ?_ ?_ ?_ ?_ ?_ ?_ ?_ ?_ ?_ ?_ ?_ ?_ ?_ ?_ ?_ ?_ ?_ ?_ ?_ ?_ ?_ ?_
    ?_ ?_ b wc card query cards cache hq
  · intro b wc card cards cache n rs srt ih h
    simp only [dbFreeQ] at h
    simp only [matchesQueryAux]
    exact ih h
  · intro b wc card nm srt cards cache f _
    simp [evalRestrictions]
  · intro b wc card nm srt cards cache f r rest step ih1 ih2 h
    simp only [dbFreeL, Bool.and_eq_true] at h
    simp only [evalRestrictions]
    rw [← ih1 h.1]
    exact ih2 h.2
  · intro b wc card nm srt cards cache p cmp _
    simp only [evalRestriction.eq_def]
  · intro b wc card nm srt cards cache g1 g2 s1 ih1 ih2 h
    simp only [dbFreeR, Bool.and_eq_true] at h
    simp only [evalRestriction]
    rw [← ih1 h.1, ← ih2 h.2]
  · intro b wc card nm srt cards cache g1 g2 s1 ih1 ih2 h
    simp only [dbFreeR, Bool.and_eq_true] at h
    simp only [evalRestriction]
    rw [← ih1 h.1, ← ih2 h.2]
  · intro b wc card nm srt cards cache g ih h
    simp only [dbFreeR] at h
    simp only [evalRestriction]
    exact ih h
  · intro b wc card nm srt cards cache x _
    simp [evalRestriction]
  · intro b wc card nm srt cards cache fld cmp _
    simp [evalRestriction]
  · intro b wc card nm srt cards cache fld thing _
    simp only [evalRestriction.eq_def]
  · intro b wc card nm srt cards cache thing _
    simp only [evalRestriction.eq_def]
  · intro b wc card nm srt cards cache sub ih h
    simp only [dbFreeR] at h
    simp only [evalRestriction]
    rw [← ih h]
  · intro b wc card nm srt cards cache sub ih h
    simp only [dbFreeR] at h
    simp only [evalRestriction]
    rw [← ih h]
  · intro b wc card nm srt cards cache sub hkw h
    simp [evalRestriction, hkw]
  · intro b wc card nm srt cards cache sub kws hkw ih h
    simp only [dbFreeR] at h
    simp only [evalRestriction, hkw]
    rw [← ih h]
  · intro wc card nm srt cards cache dq h
    simp [dbFreeR] at h
  · intro wc card nm srt cards cache dq key lst hlook h
    simp [dbFreeR] at h
  · intro wc card nm srt cards cache dq key hlook step dquery ih1 ih2 h
    simp [dbFreeR] at h
  · intro wc q allCards cache
    trivial
  · intro wc q allCards cache c rest s ih1 ih2
    trivial
  · intro b wc dq allCards cache h
    simp [devourersFilter]
  · intro b wc dq allCards cache c rest s ih1 ih2 h
    simp only [devourersFilter]
    rw [← ih1 h]
    rw [← ih2 h]
  · intro b wc dq cards cache h
    simp [devoursAny]
  · intro b wc dq cards cache kw rest hname cid hdata s hs ih1 h
    have hs2 : (matchesQueryAux b wc cid.toView dq cards cache).1 = Ternary.True := hs
    simp only [devoursAny, hname, hdata]
    rw [← ih1 h]
    simp [hs2]
  · intro b wc dq cards cache kw rest hname cid hdata s hs ih1 ih2 h
    have hs2 : ¬ (matchesQueryAux b wc cid.toView dq cards cache).1 = Ternary.True := hs
    have ih2b : devoursAny b wc dq cards
        (matchesQueryAux b wc cid.toView dq cards cache).2 rest =
        devoursAny true wc dq cards
        (matchesQueryAux b wc cid.toView dq cards cache).2 rest := ih2 h
    simp only [devoursAny, hname, hdata]
    rw [← ih1 h]
    simp [hs2, ih2b]
  · intro b wc dq cards cache kw rest hname hnodata ih h
    rcases hd : kw.data with _ | kd
    · simp only [devoursAny, hname, hd]
      exact ih h
    · rcases kd with cid | s
      · exact (hnodata cid hd).elim
      · simp only [devoursAny, hname, hd]
        exact ih h
  · intro b wc dq cards cache kw rest hname ih h
    simp only [devoursAny, if_neg hname]
    exact ih h

end Hemoglobin
